import Mathlib

/-!
# variant: input resolution and task invocation (`pkg/application.go`)

A shallow embedding of the input-resolution and task-invocation engine of the
`variant` task runner, followed by theorems about it.

Conventions of the embedding.

* A Go value of type `interface{}` is a `Value`; the Go `nil` interface is
  `Value.null`.
* A Go `error` is an `Option GoError`; `none` is the `nil` error.  A Go function
  returning `(T, error)` returns a pair.
* Go strings are Lean strings (valid UTF-8 text); a byte offset in a Go string is
  the sum of the UTF-8 widths of the characters before it, and `[]rune(s)` is the
  list of characters of `s`.
* Code that mutates `CachedTaskOutputs`, or calls the registry, the validator or
  the task body, runs in the state-passing type `M`; the state carries the cache
  and a ghost trace of the calls made, in order.
* A computation ends by returning, by a Go run-time panic, or by exhausting the
  recursion budget of the model (`Res.diverge`).
* Log statements are omitted; the text of error messages is abbreviated (the
  formatted arguments are dropped, except the short name of the input in the
  message of a missing value).
-/

namespace Variant

/-! ## Values, errors, results -/

/-- A dynamically typed Go value (`interface{}`), by dynamic type. -/
inductive Value where
  | null
  | str (s : String)
  | int (n : Int)
  | int64 (n : Int)
  | int32 (n : Int)
  | float64 (bits : Nat)
  | bool (b : Bool)
  | strs (l : List String)
  | arr (l : List Value)
  | obj (m : List (String × Value))

/-- A Go `map[string]interface{}`, as an association list with distinct keys. -/
abbrev Obj := List (String × Value)

/-- The test `v == nil` on an `interface{}`. -/
def Value.isNil : Value → Bool
  | .null => true
  | _ => false

/-- The type assertion `v.(string)`. -/
def Value.asString : Value → Option String
  | .str s => some s
  | _ => none

/-- A Go error value: a message, possibly annotated or traced by `juju/errors`. -/
inductive GoError where
  | new (msg : String)
  | annotated (cause : GoError) (msg : String)
  | traced (cause : GoError)
  deriving DecidableEq

/-- The library function `errors.Annotatef` of `github.com/juju/errors`: it wraps
a non-nil error with a message, and returns nil when given the nil error. -/
def Annotatef (other : Option GoError) (msg : String) : Option GoError :=
  match other with
  | none => none
  | some e => some (GoError.annotated e msg)

/-- The library function `errors.Trace` of `github.com/juju/errors`: nil for the
nil error. -/
def Trace (other : Option GoError) : Option GoError :=
  match other with
  | none => none
  | some e => some (GoError.traced e)

/-- How a computation ends: a normal return, a Go run-time panic, or the
exhaustion of the recursion budget of the model. -/
inductive Res (α : Type) where
  | ret (a : α)
  | panic
  | diverge

/-! ## Strings -/

/-- Width in bytes of the UTF-8 encoding of a character. -/
def runeLen (c : Char) : Nat :=
  if c.toNat < 128 then 1
  else if c.toNat < 2048 then 2
  else if c.toNat < 65536 then 3
  else 4

/-- Scan for `strings.LastIndex`: `off` is the byte offset of the remaining text,
`acc` the offset of the last match seen so far. -/
def lastIndexAux (sub : List Char) : List Char → Nat → Int → Int
  | [], off, acc => if sub = [] then (off : Int) else acc
  | c :: cs, off, acc =>
      lastIndexAux sub cs (off + runeLen c)
        (if sub.isPrefixOf (c :: cs) then (off : Int) else acc)

/-- The library function `strings.LastIndex`: byte offset of the last occurrence
of `sub` in `s`, or `-1`. -/
def LastIndex (s sub : String) : Int :=
  lastIndexAux sub.data s.data 0 (-1)

/-- Split a character list at every occurrence of `sep`. -/
def splitChars (sep : Char) : List Char → List (List Char)
  | [] => [[]]
  | c :: cs =>
      if c = sep then [] :: splitChars sep cs
      else
        match splitChars sep cs with
        | [] => [[c]]
        | w :: ws => (c :: w) :: ws

/-- The call `strings.Split(s, ".")`. -/
def SplitDot (s : String) : List String :=
  (splitChars '.' s.data).map String.mk

/-- The call `strings.Replace(s, "-", "_", -1)`. -/
def ReplaceDash (s : String) : String :=
  String.mk (s.data.map (fun c => if c = '-' then '_' else c))

/-- The call `fmt.Sprintf("%s.%s", a, b)`. -/
def dotted (a b : String) : String := a ++ "." ++ b

/-! ## `strconv.Atoi` -/

/-- Value of a decimal digit, if the character is one. -/
def digitVal (c : Char) : Option Nat :=
  if 48 ≤ c.toNat ∧ c.toNat ≤ 57 then some (c.toNat - 48) else none

/-- Accumulate decimal digits, most significant first; `none` on a non-digit. -/
def parseDigits : List Char → Nat → Option Nat
  | [], acc => some acc
  | c :: cs, acc =>
      match digitVal c with
      | none => none
      | some d => parseDigits cs (acc * 10 + d)

/-- Digits of an unsigned decimal numeral; `none` when empty or not all digits. -/
def parseUnsigned (cs : List Char) : Option Nat :=
  match cs with
  | [] => none
  | _ :: _ => parseDigits cs 0

/-- The library function `strconv.Atoi` for a 64-bit `int`: an optional sign, then
one or more decimal digits, the value within `[-2^63, 2^63 - 1]`. -/
def Atoi (s : String) : Int × Option GoError :=
  match s.data with
  | [] => (0, some (GoError.new "strconv.Atoi: invalid syntax"))
  | c :: cs =>
      if c = '-' then
        match parseUnsigned cs with
        | none => (0, some (GoError.new "strconv.Atoi: invalid syntax"))
        | some n =>
            if n ≤ 2 ^ 63 then (-(n : Int), none)
            else (-(2 : Int) ^ 63, some (GoError.new "strconv.Atoi: value out of range"))
      else
        match parseUnsigned (if c = '+' then cs else c :: cs) with
        | none => (0, some (GoError.new "strconv.Atoi: invalid syntax"))
        | some n =>
            if n < 2 ^ 63 then ((n : Int), none)
            else ((2 : Int) ^ 63 - 1, some (GoError.new "strconv.Atoi: value out of range"))

/-! ## Type conversion of a rendered string -/

/-- The function `parseSupportedValueFromString`.  `unmarshal` is the library
function `json.Unmarshal` into an `interface{}`. -/
def parseSupportedValueFromString (unmarshal : String → Value × Option GoError)
    (renderedValue typeName : String) : Value × Option GoError :=
  if typeName = "string" then
    (Value.str renderedValue, none)
  else if typeName = "integer" then
    match Atoi renderedValue with
    | (_, some err) => (Value.null, Annotatef (some err) "can't be casted to integer")
    | (value, none) => (Value.int value, none)
  else if typeName = "boolean" then
    if renderedValue = "true" then (Value.bool true, none)
    else if renderedValue = "false" then (Value.bool false, none)
    else (Value.null, some (GoError.new "can't be parsed as boolean"))
  else if typeName = "array" ∨ typeName = "object" then
    match unmarshal renderedValue with
    | (_, some err) => (Value.null, Annotatef (some err) "failed converting: failed to parse as json")
    | (dst, none) => (dst, none)
  else
    (Value.null, some (GoError.new "unsupported input type found. the type should be one of: string, integer, boolean"))

/-! ## Configuration lookup -/

/-- The function `ensureType`. -/
def ensureType (raw : Value) (tpe : String) : Value × Bool :=
  if tpe = "string" then
    match raw with
    | .str _ => (raw, true)
    | _ => (Value.null, false)
  else if tpe = "integer" then
    match raw with
    | .int _ => (raw, true)
    | .int64 _ => (raw, true)
    | _ => (Value.null, false)
  else if tpe = "bool" then
    match raw with
    | .bool _ => (raw, true)
    | _ => (Value.null, false)
  else
    (Value.null, false)

/-- The configuration store `viper`, read-only here: `Get` is `viper.Get`, `Sub`
is `viper.Sub` followed by `Get` on the sub-store (`none` when `viper.Sub`
returns nil). -/
structure Viper where
  Get : String → Value
  Sub : String → Option (String → Value)

/-- The test `valueFromFlag != ""` on an `interface{}`. -/
def Value.isEmptyString : Value → Bool
  | .str s => decide (s = "")
  | _ => false

/-- The tail of `GetTmplOrTypedValueForConfigKey` after the flag override. -/
def configLookup (viper : Viper) (k tpe : String) : Res Value :=
  let lastIndex := LastIndex k "."
  if lastIndex ≠ -1 then
    let a := k.data
    -- a[:lastIndex] and a[lastIndex+1:] slice the runes at a byte offset
    if lastIndex + 1 > (a.length : Int) then Res.panic
    else
      let k1 := String.mk (a.take lastIndex.toNat)
      let k2 := String.mk (a.drop (lastIndex.toNat + 1))
      if ¬ (viper.Get k1).isNil then
        let provided :=
          match viper.Sub k1 with
          | some values => if ¬ (values k2).isNil then values k2 else Value.null
          | none => Value.null
        if ¬ provided.isNil then Res.ret provided
        else Res.ret Value.null
      else Res.ret Value.null
  else
    let raw := viper.Get k
    if raw.isNil then Res.ret Value.null
    else
      match raw with
      | .str s => Res.ret (Value.str s)
      | _ =>
          match ensureType raw tpe with
          | (v, true) => Res.ret v
          | (_, false) => Res.ret Value.null

/-- The method `GetTmplOrTypedValueForConfigKey`. -/
def GetTmplOrTypedValueForConfigKey (viper : Viper) (k tpe : String) : Res Value :=
  let valueFromFlag := viper.Get ("flags." ++ k)
  if ¬ valueFromFlag.isNil ∧ ¬ valueFromFlag.isEmptyString then
    match valueFromFlag with
    | .str s => Res.ret (Value.str s)
    | _ =>
        match ensureType valueFromFlag tpe with
        | (any, true) => Res.ret any
        | (_, false) => configLookup viper k tpe
  else configLookup viper k tpe

/-! ## Nested maps (`pkg/util/maputil`) -/

/-- The map read `m[k]`: the nil value when the key is absent. -/
def lookupKey (k : String) : Obj → Value
  | [] => Value.null
  | (k', v) :: rest => if k' = k then v else lookupKey k rest

/-- Whether the map holds the key `k`. -/
def hasKey (k : String) : Obj → Bool
  | [] => false
  | (k', _) :: rest => if k' = k then true else hasKey k rest

/-- The map write `m[k] = v`. -/
def setKey (k : String) (v : Value) : Obj → Obj
  | [] => [(k, v)]
  | (k', v') :: rest => if k' = k then (k, v) :: rest else (k', v') :: setKey k v rest

/-- Modelled from the spec: `maputil.GetValueAtPath`, absent from the sources.  A
path-addressed read of a nested mapping: the entry held at the dotted path, the
nil value when there is none; it does not fail. -/
def GetValueAtPath : Obj → List String → Value × Option GoError
  | _, [] => (Value.null, none)
  | m, [k] => (lookupKey k m, none)
  | m, k :: k2 :: rest =>
      match lookupKey k m with
      | .obj sub => GetValueAtPath sub (k2 :: rest)
      | _ => (Value.null, none)

/-- Modelled from the spec: `maputil.SetValueAtPath`, absent from the sources.
Stores the value in the nested mapping at the dotted path, creating the nested
mappings on the way (an entry on the way that is not a mapping is replaced by
one). -/
def SetValueAtPath : Obj → List String → Value → Obj
  | m, [], _ => m
  | m, [k], v => setKey k v m
  | m, k :: k2 :: rest, v =>
      setKey k
        (Value.obj
          (SetValueAtPath (match lookupKey k m with | .obj sub => sub | _ => []) (k2 :: rest) v))
        m

mutual
/-- Merge of one entry for `DeepMerge`: two mappings are merged recursively,
otherwise the destination (child) value stands. -/
def mergeValue : Value → Value → Value
  | .obj d, .obj s => Value.obj (DeepMerge d s)
  | d, _ => d
/-- Modelled from the spec: `maputil.DeepMerge(dest, src)`, absent from the
sources.  Deep-merges `src` (the parent) underneath `dest` (the child): a key of
`src` that `dest` lacks is added, and a key that both hold keeps the value of
`dest`, except that two nested mappings are merged in the same way. -/
def DeepMerge : Obj → Obj → Obj
  | dest, [] => dest
  | dest, (k, v) :: rest =>
      DeepMerge
        (if hasKey k dest then setKey k (mergeValue (lookupKey k dest) v) dest
         else setKey k v dest)
        rest
end

/-! ## Task names, inputs, tasks, arguments -/

/-- Modelled from the spec: the type `TaskName`, absent from the sources: an
ordered sequence of namespace segments. -/
structure TaskName where
  Components : List String
  deriving DecidableEq

/-- Modelled from the spec: `TaskName.ShortString`, absent from the sources: the
canonical dotted form of the name. -/
def TaskName.ShortString (t : TaskName) : String :=
  String.intercalate "." t.Components

/-- Modelled from the spec: `TaskName.Parent`, absent from the sources: the name
with its last segment removed; it fails at a name of a single segment. -/
def TaskName.Parent (t : TaskName) : TaskName × Option GoError :=
  if t.Components.length ≤ 1 then (⟨[]⟩, some (GoError.new "no parent"))
  else (⟨t.Components.dropLast⟩, none)

/-- A declared input of a task.  The type is absent from the sources; each field
is the result of the field access or method call of the same name, and `TaskKey`
is the result of `TaskNamer.FromResolvedInput` on the input.  A nil `Default` is
`Value.null`; a nil `ArgumentIndex` is `none`. -/
structure Input where
  Name : String
  ShortName : String
  ArgumentIndex : Option Int
  TypeName : String
  Default : Value
  DefaultAsString : String
  DefaultAsInt : Int
  DefaultAsBool : Bool
  DefaultAsArray : List Value × Option GoError
  DefaultAsObject : Obj × Option GoError
  Required : Bool
  JSONSchema : Obj
  TaskKey : TaskName

/-- A task definition: its name (`Name`, also returned by `GetKey`), its declared
inputs and its resolved inputs. -/
structure Task where
  Name : TaskName
  Inputs : List Input
  ResolvedInputs : List Input

/-- Modelled from the spec: `task.Arguments.Get`, absent from the sources: the
named-argument lookup by name, failing when no argument has the name. -/
def ArgumentsGet (arguments : Obj) (name : String) : Value × Option GoError :=
  if hasKey name arguments then (lookupKey name arguments, none)
  else (Value.null, some (GoError.new "no argument of that name"))

/-- Modelled from the spec: `task.Arguments.GetSubOrEmpty`, absent from the
sources: the sub-scope sliced out of the named arguments by a name, empty when
there is none. -/
def ArgumentsGetSubOrEmpty (arguments : Obj) (name : String) : Obj :=
  match lookupKey name arguments with
  | .obj sub => sub
  | _ => []

/-! ## The application, its collaborators and its state -/

/-- The fields of `Application` read by the code: `FindTask` is
`TaskRegistry.FindTask`. -/
structure Application where
  Name : String
  CommandRelativePath : String
  Env : String
  FindTask : TaskName → Except GoError Task

/-- The collaborators outside the sources.  `viper` is the configuration store;
`Render t scope expr name` is `NewTaskTemplate(t, scope).Render(expr, name)`;
`Unmarshal` is `json.Unmarshal`; `Flatten` is `maputil.Flatten`; `NewSchema` is
`gojsonschema.NewSchema` (nil error on success); `Validate schema doc` is
`Schema.Validate`, its result the list of violations (`none` for a nil result);
`NewTaskRunner` gives the error of `NewTaskRunner`; `Run t vars caller cache`
is `TaskRunner.Run`, which returns the output and may update the cache; `Sprint`
is `fmt.Sprintf("%v", _)`. -/
structure Lib where
  viper : Viper
  Render : Task → Obj → String → String → String × Option GoError
  Unmarshal : String → Value × Option GoError
  Flatten : Obj → Obj
  NewSchema : Value → Option GoError
  Validate : Value → Obj → Option (List String) × Option GoError
  NewTaskRunner : Task → Obj → Option GoError
  Run : Task → Obj → List Task → Obj → (String × Option GoError) × Obj
  Sprint : Value → String

/-- A call recorded in the ghost trace. -/
inductive Event where
  | cacheRead (path : List String)
  | cacheWrite (path : List String)
  | runTask (name : TaskName)
  | findTask (name : TaskName)
  | validate (name : TaskName)
  | newTaskRunner (name : TaskName)
  | runBody (name : TaskName)
  deriving DecidableEq

/-- The mutable state of a run: the shared `CachedTaskOutputs` and the ghost
trace of calls. -/
structure State where
  CachedTaskOutputs : Obj
  trace : List Event

/-- Record a call in the trace. -/
def State.log (s : State) (e : Event) : State :=
  { s with trace := s.trace ++ [e] }

/-- A computation over the run state. -/
abbrev M (α : Type) := State → Res (α × State)

/-- The signature of `RunTask`, as seen by the input resolver. -/
abbrev RunTaskFn :=
  TaskName → List String → Obj → Obj → List Task → M (String × Option GoError)

/-- Sequencing of computations that may panic. -/
def Res.bind {α β : Type} (r : Res α) (f : α → Res β) : Res β :=
  match r with
  | .ret a => f a
  | .panic => Res.panic
  | .diverge => Res.diverge

/-- Two's-complement wrap-around of 64-bit `int` arithmetic. -/
def wrapInt64 (x : Int) : Int :=
  (x + 2 ^ 63) % 2 ^ 64 - 2 ^ 63

/-! ## Resolution of one input (`DirectInputValuesForTaskKey`, loop body) -/

/-- The positional source: `args[*i]` when `ArgumentIndex` is set and
`len(args) >= *i+1`; indexing out of range panics. -/
def positionalArg (input : Input) (args : List String) : Res Value :=
  match input.ArgumentIndex with
  | none => Res.ret Value.null
  | some i =>
      if (args.length : Int) ≥ wrapInt64 (i + 1) then
        if 0 ≤ i then
          match args[i.toNat]? with
          | some a => Res.ret (Value.str a)
          | none => Res.panic
        else Res.panic
      else Res.ret Value.null

/-- The named-argument sources: by `Name`, then by `ShortName` when it differs. -/
def namedArg (input : Input) (arguments : Obj) (tmplOrStaticVal : Value) : Value :=
  let v1 :=
    if tmplOrStaticVal.isNil then
      match ArgumentsGet arguments input.Name with
      | (v, none) => v
      | (_, some _) => tmplOrStaticVal
    else tmplOrStaticVal
  if v1.isNil ∧ input.Name ≠ input.ShortName then
    match ArgumentsGet arguments input.ShortName with
    | (v, none) => v
    | (_, some _) => v1
  else v1

/-- The configuration sources: the caller-scoped key, the task-scoped key, the
bare short name. -/
def configArg (L : Lib) (taskName : TaskName) (baseTaskKey : String) (input : Input)
    (tmplOrStaticVal : Value) : Res Value :=
  Res.bind
    (if tmplOrStaticVal.isNil ∧ baseTaskKey ≠ "" then
      GetTmplOrTypedValueForConfigKey L.viper (dotted baseTaskKey input.ShortName) input.TypeName
     else Res.ret tmplOrStaticVal)
    fun v1 =>
  Res.bind
    (if v1.isNil ∧ LastIndex input.ShortName taskName.ShortString = -1 then
      GetTmplOrTypedValueForConfigKey L.viper (dotted taskName.ShortString input.ShortName) input.TypeName
     else Res.ret v1)
    fun v2 =>
  if v2.isNil then GetTmplOrTypedValueForConfigKey L.viper input.ShortName input.TypeName
  else Res.ret v2

/-- The value of `tmplOrStaticVal` after the positional, named-argument and
configuration sources. -/
def rawFromSources (L : Lib) (taskName : TaskName) (baseTaskKey : String) (input : Input)
    (args : List String) (arguments : Obj) : Res Value :=
  Res.bind (positionalArg input args) fun v0 =>
  configArg L taskName baseTaskKey input (namedArg input arguments v0)

/-- The static default, taken when `tmplOrStaticVal` is nil: the value of `value`
and the error returned, if any. -/
def staticDefault (input : Input) : Value × Option GoError :=
  if ¬ input.Default.isNil then
    if input.TypeName = "string" then (Value.str input.DefaultAsString, none)
    else if input.TypeName = "integer" then (Value.int input.DefaultAsInt, none)
    else if input.TypeName = "boolean" then (Value.bool input.DefaultAsBool, none)
    else if input.TypeName = "array" then
      match input.DefaultAsArray with
      | (_, some err) => (Value.null, Annotatef (some err) "failed to parse default value as array")
      | (v, none) => (Value.arr v, none)
    else if input.TypeName = "object" then
      match input.DefaultAsObject with
      | (_, some err) => (Value.null, Annotatef (some err) "failed to parse default value as map")
      | (v, none) => (Value.obj v, none)
    else
      (Value.null, some (GoError.new "unsupported input type found. the type should be one of: string, integer, boolean"))
  else if input.Name = "env" then (Value.str "", none)
  else (Value.null, none)

/-- The dependency fallback: the cached output at the path, or else the output of
the dependency task, stored in the cache. -/
def dependencyFallback (run : RunTaskFn) (currentTask : Task) (arguments : Obj)
    (input : Input) (pathComponents : List String) : M (Value × Option GoError) := fun s =>
  let s1 := s.log (Event.cacheRead pathComponents)
  match GetValueAtPath s.CachedTaskOutputs pathComponents with
  | (output, err) =>
      if output.isNil then
        let args := ArgumentsGetSubOrEmpty arguments input.Name
        match run input.TaskKey [] args [] [currentTask] (s1.log (Event.runTask input.TaskKey)) with
        | .panic => Res.panic
        | .diverge => Res.diverge
        | .ret ((_, some e), s2) =>
            Res.ret ((Value.null,
              Annotatef (some e)
                ("Missing value for input " ++ input.ShortName ++
                  ". Please provide a command line option or a positional argument or a task for it")),
              s2)
        | .ret ((out, none), s2) =>
            Res.ret ((Value.str out, none),
              { CachedTaskOutputs := SetValueAtPath s2.CachedTaskOutputs pathComponents (Value.str out),
                trace := s2.trace ++ [Event.cacheWrite pathComponents] })
      else
        match err with
        | some e => Res.ret ((Value.null, Trace (some e)), s1)
        | none => Res.ret ((output, none), s1)

/-- Rendering and typing of `tmplOrStaticVal`: a string is rendered and converted
to the declared type, any other value is taken as it is. -/
def renderAndType (L : Lib) (currentTask : Task) (scope : Obj) (input : Input)
    (tmplOrStaticVal : Value) : Value × Option GoError :=
  if ¬ tmplOrStaticVal.isNil then
    match tmplOrStaticVal with
    | .str expr =>
        match L.Render currentTask scope expr input.Name with
        | (_, some err) => (Value.null, Annotatef (some err) "failed to render task template")
        | (r, none) =>
            match parseSupportedValueFromString L.Unmarshal r input.TypeName with
            | (_, some err) => (Value.null, some err)
            | (value, none) => (value, none)
    | v => (v, none)
  else (Value.null, none)

/-- The body of the loop over the resolved inputs: the value to store for the
input, or the error with which the resolution returns. -/
def resolveInput (L : Lib) (run : RunTaskFn) (taskName : TaskName) (currentTask : Task)
    (baseTaskKey : String) (args : List String) (arguments scope : Obj) (input : Input) :
    M (Value × Option GoError) := fun s =>
  match rawFromSources L taskName baseTaskKey input args arguments with
  | .panic => Res.panic
  | .diverge => Res.diverge
  | .ret tmplOrStaticVal =>
      match (if tmplOrStaticVal.isNil then staticDefault input else (Value.null, none)) with
      | (_, some err) => Res.ret ((Value.null, some err), s)
      | (value, none) =>
          let pathComponents := SplitDot input.Name
          if value.isNil then
            if tmplOrStaticVal.isNil then
              match dependencyFallback run currentTask arguments input pathComponents s with
              | .panic => Res.panic
              | .diverge => Res.diverge
              | .ret ((_, some err), s2) => Res.ret ((Value.null, some err), s2)
              | .ret ((v, none), s2) =>
                  Res.ret (renderAndType L currentTask scope input v, s2)
            else Res.ret (renderAndType L currentTask scope input tmplOrStaticVal, s)
          else Res.ret ((value, none), s)

/-- The loop over the resolved inputs, accumulating `values`. -/
def resolveInputs (L : Lib) (run : RunTaskFn) (taskName : TaskName) (currentTask : Task)
    (baseTaskKey : String) (args : List String) (arguments scope : Obj) :
    List Input → Obj → M (Obj × Option GoError)
  | [], values => fun s => Res.ret ((values, none), s)
  | input :: rest, values => fun s =>
      match resolveInput L run taskName currentTask baseTaskKey args arguments scope input s with
      | .panic => Res.panic
      | .diverge => Res.diverge
      | .ret ((_, some err), s1) => Res.ret (([], some err), s1)
      | .ret ((value, none), s1) =>
          resolveInputs L run taskName currentTask baseTaskKey args arguments scope rest
            (SetValueAtPath values (SplitDot input.Name) value) s1

/-- The method `DirectInputValuesForTaskKey`; `run` is `p.RunTask`. -/
def DirectInputValuesForTaskKey (L : Lib) (p : Application) (run : RunTaskFn)
    (taskName : TaskName) (args : List String) (arguments scope : Obj) (caller : List Task) :
    M (Obj × Option GoError) := fun s =>
  let baseTaskKey :=
    match caller with
    | c :: _ => c.Name.ShortString
    | [] => ""
  match p.FindTask taskName with
  | .error err => Res.ret (([], Trace (some err)), s.log (Event.findTask taskName))
  | .ok currentTask =>
      resolveInputs L run taskName currentTask baseTaskKey args arguments scope
        currentTask.ResolvedInputs [] (s.log (Event.findTask taskName))

/-! ## Inherited inputs and task invocation -/

/-- The method `InheritedInputValuesForTaskKey`, with a budget for the walk up
the namespace; `run` is `p.RunTask`.  The loop copying `direct` into the fresh
`result` map is the identity on the mapping. -/
def InheritedAux (L : Lib) (p : Application) (run : RunTaskFn) :
    Nat → TaskName → List String → Obj → Obj → List Task → M (Obj × Option GoError)
  | 0, _, _, _, _, _ => fun _ => Res.diverge
  | fuel + 1, taskName, args, arguments, scope, caller => fun s =>
      match DirectInputValuesForTaskKey L p run taskName args arguments scope caller s with
      | .panic => Res.panic
      | .diverge => Res.diverge
      | .ret ((_, some err), s1) =>
          Res.ret (([], Annotatef (some err) "One or more inputs for task failed"), s1)
      | .ret ((direct, none), s1) =>
          let result := direct
          match taskName.Parent with
          | (parentKey, none) =>
              match InheritedAux L p run fuel parentKey [] arguments [] caller s1 with
              | .panic => Res.panic
              | .diverge => Res.diverge
              | .ret ((_, some err), s2) =>
                  Res.ret (([], Annotatef (some err) "AggregateInputsForParent failed"), s2)
              | .ret ((inherited, none), s2) =>
                  Res.ret ((DeepMerge result inherited, none), s2)
          | (_, some _) => Res.ret ((result, none), s1)

/-- The method `InheritedInputValuesForTaskKey`: the walk up the namespace takes
one step per segment of the name, so this budget is never exhausted. -/
def InheritedInputValuesForTaskKey (L : Lib) (p : Application) (run : RunTaskFn)
    (taskName : TaskName) (args : List String) (arguments scope : Obj) (caller : List Task) :
    M (Obj × Option GoError) :=
  InheritedAux L p run (taskName.Components.length + 1) taskName args arguments scope caller

/-- The function `jsonschemaFromInputs`: the schema document built from the
inputs, and the error of `gojsonschema.NewSchema`. -/
def jsonschemaFromInputs (L : Lib) (inputs : List Input) : Value × Option GoError :=
  let props : Obj :=
    inputs.foldl (fun m input => setKey (ReplaceDash input.Name) (Value.obj input.JSONSchema) m) []
  let required : List String :=
    (inputs.filter (fun input => input.Required)).map (fun input => ReplaceDash input.Name)
  let goschema :=
    Value.obj [("type", Value.str "object"), ("properties", Value.obj props),
               ("required", Value.strs required)]
  match L.NewSchema goschema with
  | some err => (Value.null, some err)
  | none => (goschema, none)

/-- The variable scope of `RunTask`: `args`, `env` and `cmd`, then every
top-level entry of the resolved inputs written over it. -/
def buildVars (p : Application) (args : List String) (inputs : Obj) : Obj :=
  inputs.foldl (fun vars kv => setKey kv.1 kv.2 vars)
    (setKey "cmd" (Value.str p.CommandRelativePath)
      (setKey "env" (Value.str p.Env)
        (setKey "args" (Value.strs args) [])))

/-- The part of `RunTask` after the inputs are resolved: validation, then the
task body. -/
def validateAndRun (L : Lib) (taskName : TaskName) (taskDef : Task) (vars : Obj)
    (caller : List Task) : M (String × Option GoError) := fun s =>
  let kv := L.Flatten vars
  match jsonschemaFromInputs L taskDef.Inputs with
  | (_, some err) =>
      Res.ret (("", Annotatef (some err) "app failed while generating jsonschema"), s)
  | (schema, none) =>
      let s1 := s.log (Event.validate taskName)
      match L.Validate schema kv with
      | (none, _) => Res.panic
      | (some violations, err) =>
          if violations = [] then
            let s2 := s1.log (Event.newTaskRunner taskName)
            match L.NewTaskRunner taskDef vars with
            | some err2 =>
                Res.ret (("", Annotatef (some err2) "failed to initialize task runner"), s2)
            | none =>
                match L.Run taskDef vars caller s2.CachedTaskOutputs with
                | ((output, error), cache) =>
                    Res.ret ((output, Annotatef error "app failed running task"),
                      { CachedTaskOutputs := cache,
                        trace := s2.trace ++ [Event.runBody taskName] })
          else
            Res.ret (("", Annotatef err "app failed validating inputs"), s1)

/-- The method `RunTask`, with a budget for the recursion through dependency
tasks. -/
def RunTask (L : Lib) (p : Application) :
    Nat → TaskName → List String → Obj → Obj → List Task → M (String × Option GoError)
  | 0, _, _, _, _, _ => fun _ => Res.diverge
  | fuel + 1, taskName, args, arguments, scope, caller => fun s =>
      match GetTmplOrTypedValueForConfigKey L.viper taskName.ShortString "string" with
      | .panic => Res.panic
      | .diverge => Res.diverge
      | .ret provided =>
          if ¬ provided.isNil then
            Res.ret ((L.Sprint provided, none), s)
          else
            match p.FindTask taskName with
            | .error err =>
                Res.ret (("", Annotatef (some err) "app failed finding task"),
                  s.log (Event.findTask taskName))
            | .ok taskDef =>
                match InheritedInputValuesForTaskKey L p (RunTask L p fuel) taskName args
                    arguments scope caller (s.log (Event.findTask taskName)) with
                | .panic => Res.panic
                | .diverge => Res.diverge
                | .ret ((_, some err), s1) =>
                    Res.ret (("", Annotatef (some err) "app failed running task"), s1)
                | .ret ((inputs, none), s1) =>
                    validateAndRun L taskName taskDef (buildVars p args inputs) caller s1

/-! ## Specification-side definitions -/

/-- A decimal digit character, `0` to `9`. -/
def IsDigitChar (c : Char) : Prop := 48 ≤ c.toNat ∧ c.toNat ≤ 57

/-- The number written by a list of decimal digits, most significant first. -/
def decimalValue (ds : List Char) : Nat :=
  ds.foldl (fun acc c => acc * 10 + (c.toNat - 48)) 0

/-- The string `s` is a base-10 representation of the machine integer `n`: an
optional sign, then one or more decimal digits, with `n` in `[-2^63, 2^63 - 1]`. -/
def IsBase10 (s : String) (n : Int) : Prop :=
  ∃ sign ds : List Char,
    s.data = sign ++ ds ∧ (sign = [] ∨ sign = ['+'] ∨ sign = ['-']) ∧
    ds ≠ [] ∧ (∀ c ∈ ds, IsDigitChar c) ∧
    n = (if sign = ['-'] then -(decimalValue ds : Int) else (decimalValue ds : Int)) ∧
    -(2 : Int) ^ 63 ≤ n ∧ n < (2 : Int) ^ 63

/-! ## Sample instances -/

/-- A configuration store that holds nothing. -/
def emptyViper : Viper :=
  { Get := fun _ => Value.null, Sub := fun _ => none }

/-- A configuration file with the section `deploy` holding `replicas: true`. -/
def sectionViper : Viper :=
  { Get := fun k =>
      if k = "deploy" then Value.obj [("replicas", Value.bool true)]
      else if k = "deploy.replicas" then Value.bool true
      else Value.null,
    Sub := fun k =>
      if k = "deploy" then some (fun k2 => if k2 = "replicas" then Value.bool true else Value.null)
      else none }

/-- A configuration store that holds the string `stubbed` at the key `deploy`. -/
def stubViper : Viper :=
  { Get := fun k => if k = "deploy" then Value.str "stubbed" else Value.null,
    Sub := fun _ => none }

/-- The violations a schema validator reports: a required property that the
document lacks, and a property declared `integer` that holds another type. -/
def sampleViolations (schema : Value) (doc : Obj) : List String :=
  match schema with
  | .obj m =>
      (match lookupKey "required" m with
        | .strs req => req.filter (fun r => (lookupKey r doc).isNil)
        | _ => []) ++
      (match lookupKey "properties" m with
        | .obj props =>
            (props.filter (fun kv =>
              match kv.2 with
              | .obj ps =>
                  (match lookupKey "type" ps with
                    | .str t =>
                        decide (t = "integer") &&
                          (match lookupKey kv.1 doc with
                            | .int _ => false
                            | .int64 _ => false
                            | .null => false
                            | _ => true)
                    | _ => false)
              | _ => false)).map Prod.fst
        | _ => [])
  | _ => []

/-- A library instance over a configuration store: the renderer prefixes the
expression with `rendered:`, the validator reports `sampleViolations`, the task
body prints `done`, and `Sprint` prints strings, integers and booleans (the
samples print no other value). -/
def sampleLib (viper : Viper) : Lib :=
  { viper := viper,
    Render := fun _ _ expr _ => ("rendered:" ++ expr, none),
    Unmarshal := fun _ => (Value.null, some (GoError.new "invalid character")),
    Flatten := fun vars => vars,
    NewSchema := fun _ => none,
    Validate := fun schema doc => (some (sampleViolations schema doc), none),
    NewTaskRunner := fun _ _ => none,
    Run := fun _ _ _ cache => (("done", none), cache),
    Sprint := fun v => match v with
      | .str s => s
      | .int n => toString n
      | .int64 n => toString n
      | .int32 n => toString n
      | .bool b => toString b
      | _ => "" }

/-- A library instance whose renderer returns plain text unchanged. -/
def plainLib (viper : Viper) : Lib :=
  { sampleLib viper with Render := fun _ _ expr _ => (expr, none) }

/-- An input with the given name and type, no default and no positional slot. -/
def sampleInput (name typeName : String) : Input :=
  { Name := name, ShortName := name, ArgumentIndex := none, TypeName := typeName,
    Default := Value.null, DefaultAsString := "", DefaultAsInt := 0, DefaultAsBool := false,
    DefaultAsArray := ([], none), DefaultAsObject := ([], none), Required := true,
    JSONSchema := [("type", Value.str typeName)],
    TaskKey := ⟨["deploy", name]⟩ }

/-- The input `region`: a string with no default. -/
def regionInput : Input := sampleInput "region" "string"

/-- The input `replicas`: an integer with the default 3. -/
def replicasInput : Input :=
  { sampleInput "replicas" "integer" with
    Default := Value.int 3, DefaultAsInt := 3, Required := false }

/-- The task `deploy`, with the inputs `region` and `replicas`. -/
def deployTask : Task :=
  { Name := ⟨["deploy"]⟩, Inputs := [regionInput, replicasInput],
    ResolvedInputs := [regionInput, replicasInput] }

/-- The task `deploy` with the single input `replicas`. -/
def scaleTask : Task :=
  { Name := ⟨["deploy"]⟩, Inputs := [replicasInput], ResolvedInputs := [replicasInput] }

/-- An application whose registry holds the one task given, under its name. -/
def sampleApp (t : Task) : Application :=
  { Name := "app", CommandRelativePath := "app", Env := "dev",
    FindTask := fun n => if n = t.Name then Except.ok t else Except.error (GoError.new "task not found") }

/-- An application whose registry holds no task. -/
def emptyApp : Application :=
  { Name := "app", CommandRelativePath := "app", Env := "dev",
    FindTask := fun _ => Except.error (GoError.new "task not found") }

/-- The state at the start of a run: an empty cache and an empty trace. -/
def initState : State := { CachedTaskOutputs := [], trace := [] }

/-- The input `replicas` bound to the first positional argument. -/
def positionalInput : Input :=
  { replicasInput with ArgumentIndex := some 0 }

/-- A resolver callback that is never expected to run: it exhausts the budget. -/
def noRun : RunTaskFn := fun _ _ _ _ _ _ => Res.diverge

/-- The input `banner`: a string whose default is the text `hello`. -/
def bannerInput : Input :=
  { sampleInput "banner" "string" with
    Default := Value.str "hello", DefaultAsString := "hello", Required := false }

/-- The task `deploy` with the single input `banner`. -/
def bannerTask : Task :=
  { Name := ⟨["deploy"]⟩, Inputs := [bannerInput], ResolvedInputs := [bannerInput] }

/-- The string `e` rendered against the scope bound to the task, then converted to
the declared type of the input: `parseSupportedValueFromString(render(e), TypeName)`,
an error of the renderer being returned annotated. -/
def renderThenConvert (L : Lib) (currentTask : Task) (scope : Obj) (input : Input)
    (e : String) : Value × Option GoError :=
  match L.Render currentTask scope e input.Name with
  | (_, some err) => (Value.null, Annotatef (some err) "failed to render task template")
  | (r, none) => parseSupportedValueFromString L.Unmarshal r input.TypeName

/-- A resolver callback under which every dependency task prints `sha256` and
leaves the run state as it is. -/
def constRun : RunTaskFn := fun _ _ _ _ _ s => Res.ret (("sha256", none), s)

/-- Whether a value is a nested mapping. -/
def Value.isObj : Value → Bool
  | .obj _ => true
  | _ => false

/-- The keys of an association list are pairwise distinct, as those of a Go map. -/
def distinctKeys : Obj → Prop
  | [] => True
  | (k, _) :: rest => hasKey k rest = false ∧ distinctKeys rest

/-- The task `deploy.canary`, with the single input `replicas`. -/
def canaryTask : Task :=
  { Name := ⟨["deploy", "canary"]⟩, Inputs := [replicasInput],
    ResolvedInputs := [replicasInput] }

/-- The task `deploy` with the inputs `region` and `replicas`, the default of
`replicas` being 7. -/
def parentTask : Task :=
  { Name := ⟨["deploy"]⟩,
    Inputs := [regionInput, { replicasInput with Default := Value.int 7, DefaultAsInt := 7 }],
    ResolvedInputs :=
      [regionInput, { replicasInput with Default := Value.int 7, DefaultAsInt := 7 }] }

/-- An application whose registry holds `deploy` and `deploy.canary`. -/
def familyApp : Application :=
  { Name := "app", CommandRelativePath := "app", Env := "dev",
    FindTask := fun n =>
      if n = canaryTask.Name then Except.ok canaryTask
      else if n = parentTask.Name then Except.ok parentTask
      else Except.error (GoError.new "task not found") }

/-! ## Further specification-side definitions and sample instances -/

/-- The section name `k1` and the leaf `k2` that `GetTmplOrTypedValueForConfigKey`
computes for a key: `a := []rune(k)`, `k1 := string(a[:lastIndex])`,
`k2 := string(a[lastIndex+1:])` with `lastIndex` the byte offset of the last dot;
a slice out of range panics. -/
def splitKey (k : String) : Res (String × String) :=
  let lastIndex := LastIndex k "."
  let a := k.data
  if lastIndex + 1 > (a.length : Int) then Res.panic
  else Res.ret (String.mk (a.take lastIndex.toNat), String.mk (a.drop (lastIndex.toNat + 1)))

/-- Length in bytes of the UTF-8 encoding of a text. -/
def utf8Len (cs : List Char) : Nat :=
  (cs.map runeLen).sum

/-- The first result that is not absent among lookups consulted in order: a
lookup is consulted only when every earlier one returned the nil value, and a
panic of a consulted lookup ends the search. -/
def firstPresent : List (Res Value) → Res Value
  | [] => Res.ret Value.null
  | r :: rest =>
      match r with
      | .ret v => if v.isNil then firstPresent rest else Res.ret v
      | .panic => Res.panic
      | .diverge => Res.diverge

/-- A configuration store with the empty string at `flags.region` and the string
`fallback` at `region`. -/
def emptyFlagViper : Viper :=
  { Get := fun k =>
      if k = "flags.region" then Value.str ""
      else if k = "region" then Value.str "fallback"
      else Value.null,
    Sub := fun _ => none }

/-- A flat configuration store that holds the string `eu-west-1` at the dotted key
`deploy.region` and the native boolean `true` at `debug`, and has no section. -/
def flatViper : Viper :=
  { Get := fun k =>
      if k = "deploy.region" then Value.str "eu-west-1"
      else if k = "debug" then Value.bool true
      else Value.null,
    Sub := fun _ => none }

/-- The task `show`, which declares the single input `env`. -/
def envTask : Task :=
  { Name := ⟨["show"]⟩, Inputs := [sampleInput "env" "string"],
    ResolvedInputs := [sampleInput "env" "string"] }

/-- A library instance whose task body prints the variable `env` of the scope it
is bound to. -/
def echoLib : Lib :=
  { sampleLib emptyViper with
    Run := fun _ vars _ cache =>
      ((match lookupKey "env" vars with
        | .str e => "env=" ++ e
        | _ => "env is not a string", none), cache) }

/-- The input `replicas` bound to the positional slot `-1`. -/
def negativeIndexInput : Input :=
  { replicasInput with ArgumentIndex := some (-1) }

/-- The task `deploy` with the single input bound to the positional slot `-1`. -/
def negativeIndexTask : Task :=
  { Name := ⟨["deploy"]⟩, Inputs := [negativeIndexInput],
    ResolvedInputs := [negativeIndexInput] }

/-- A resolver callback under which every dependency task fails. -/
def failRun : RunTaskFn := fun _ _ _ _ _ s =>
  Res.ret (("", some (GoError.new "task not found")), s)

/-- A configuration file with the section `é` holding `a: x`. -/
def unicodeViper : Viper :=
  { Get := fun k => if k = "é" then Value.obj [("a", Value.str "x")] else Value.null,
    Sub := fun k =>
      if k = "é" then some (fun k2 => if k2 = "a" then Value.str "x" else Value.null)
      else none }

/-- The input `replicas` bound to the positional slot `2^63 - 1`, the largest
machine integer. -/
def maxIndexInput : Input :=
  { replicasInput with ArgumentIndex := some 9223372036854775807 }

/-! ## Definitions for the cache and the merge of inherited inputs -/

/-- The input is resolved without the dependency fallback: a positional, named or
configuration source yields a value that renders and converts, or none does and
the static default (or the implicit `env`) yields the value. -/
def resolvedWithoutDependency (L : Lib) (taskName : TaskName) (currentTask : Task)
    (baseTaskKey : String) (args : List String) (arguments scope : Obj) (m : Input) : Prop :=
  ∃ t : Value,
    rawFromSources L taskName baseTaskKey m args arguments = Res.ret t ∧
    ((t.isNil = false ∧ (renderAndType L currentTask scope m t).2 = none) ∨
     (t.isNil = true ∧ ∃ value, staticDefault m = (value, none) ∧ value.isNil = false))

/-- The input `p` of the task `t`, produced by the task `d.k`. -/
def producedInput (producer : TaskName) : Input :=
  { sampleInput "p" "string" with TaskKey := producer }

/-- An application with four tasks: `t` declares the input `p`, produced by the
task `d.k`; `d.k` declares nothing; its parent `d` declares the input `p` as well,
produced by the task `q`; `q` declares nothing. -/
def reentrantApp : Application :=
  { Name := "app", CommandRelativePath := "app", Env := "dev",
    FindTask := fun n =>
      if n = ⟨["t"]⟩ then
        Except.ok { Name := ⟨["t"]⟩, Inputs := [producedInput ⟨["d", "k"]⟩],
                    ResolvedInputs := [producedInput ⟨["d", "k"]⟩] }
      else if n = ⟨["d", "k"]⟩ then
        Except.ok { Name := ⟨["d", "k"]⟩, Inputs := [], ResolvedInputs := [] }
      else if n = ⟨["d"]⟩ then
        Except.ok { Name := ⟨["d"]⟩, Inputs := [producedInput ⟨["q"]⟩],
                    ResolvedInputs := [producedInput ⟨["q"]⟩] }
      else if n = ⟨["q"]⟩ then
        Except.ok { Name := ⟨["q"]⟩, Inputs := [], ResolvedInputs := [] }
      else Except.error (GoError.new "task not found") }

/-- A library instance over an empty configuration whose task body prints `out-`
followed by the name of the task. -/
def namingLib : Lib :=
  { plainLib emptyViper with
    Run := fun t _ _ cache => (("out-" ++ t.Name.ShortString, none), cache) }

/-- The mapping holds nothing on the way to the dotted path: some key of the path
is absent, every key before it holding a nested mapping. -/
def freeAt : Obj → List String → Prop
  | _, [] => True
  | d, [k] => hasKey k d = false
  | d, k :: k2 :: rest =>
      hasKey k d = false ∨ ∃ sub, lookupKey k d = Value.obj sub ∧ freeAt sub (k2 :: rest)

/-- The mappings met on the way to the dotted path have pairwise distinct keys, as
every Go map has. -/
def distinctAlong : Obj → List String → Prop
  | _, [] => True
  | m, k :: rest =>
      distinctKeys m ∧ ∀ sub, lookupKey k m = Value.obj sub → distinctAlong sub rest

/-- An input `cfg` of type `object` whose default is the given mapping. -/
def cfgInput (m : Obj) : Input :=
  { sampleInput "cfg" "object" with
    Default := Value.obj m, DefaultAsObject := (m, none), Required := false }

/-- A string input with the given dotted name and default. -/
def defaultedInput (name value : String) : Input :=
  { sampleInput name "string" with
    Default := Value.str value, DefaultAsString := value, Required := false }

/-- The task `svc.api`: the input `cfg` with the default `p: 1`, and the input
`db.host` with the default `localhost`. -/
def apiTask : Task :=
  { Name := ⟨["svc", "api"]⟩,
    Inputs := [cfgInput [("p", Value.int 1)], defaultedInput "db.host" "localhost"],
    ResolvedInputs := [cfgInput [("p", Value.int 1)], defaultedInput "db.host" "localhost"] }

/-- The task `svc`: the input `cfg` with the default `q: 2`, and the input
`db.port` with the default `5432`. -/
def svcTask : Task :=
  { Name := ⟨["svc"]⟩,
    Inputs := [cfgInput [("q", Value.int 2)], defaultedInput "db.port" "5432"],
    ResolvedInputs := [cfgInput [("q", Value.int 2)], defaultedInput "db.port" "5432"] }

/-- An application whose registry holds `svc` and `svc.api`. -/
def svcApp : Application :=
  { Name := "app", CommandRelativePath := "app", Env := "dev",
    FindTask := fun n =>
      if n = apiTask.Name then Except.ok apiTask
      else if n = svcTask.Name then Except.ok svcTask
      else Except.error (GoError.new "task not found") }

/-! ## Lemmas: type conversion -/

theorem digitVal_eq_some {c : Char} {d : Nat} :
    digitVal c = some d ↔ IsDigitChar c ∧ d = c.toNat - 48 := by
  unfold digitVal IsDigitChar
  split <;> rename_i h
  · simp [h, eq_comm]
  · simp [h]

theorem digitVal_eq_none {c : Char} : digitVal c = none ↔ ¬ IsDigitChar c := by
  unfold digitVal IsDigitChar
  split <;> rename_i h <;> simp [h]

theorem parseDigits_eq_some (ds : List Char) (acc m : Nat) :
    parseDigits ds acc = some m ↔
      (∀ c ∈ ds, IsDigitChar c) ∧ m = ds.foldl (fun a c => a * 10 + (c.toNat - 48)) acc := by
  induction ds generalizing acc with
  | nil => simp [parseDigits, eq_comm]
  | cons c cs ih =>
      unfold parseDigits
      cases hd : digitVal c with
      | none =>
          have := digitVal_eq_none.mp hd
          simp [this]
      | some d =>
          obtain ⟨hc, rfl⟩ := digitVal_eq_some.mp hd
          simp [ih, hc]

theorem parseUnsigned_eq_some (ds : List Char) (m : Nat) :
    parseUnsigned ds = some m ↔ ds ≠ [] ∧ (∀ c ∈ ds, IsDigitChar c) ∧ m = decimalValue ds := by
  cases ds with
  | nil => simp [parseUnsigned]
  | cons c cs => simp [parseUnsigned, parseDigits_eq_some, decimalValue]

theorem not_digit_minus : ¬ IsDigitChar '-' := by unfold IsDigitChar; decide
theorem not_digit_plus : ¬ IsDigitChar '+' := by unfold IsDigitChar; decide

theorem isBase10_cons_minus (cs : List Char) (n : Int) :
    IsBase10 (String.mk ('-' :: cs)) n ↔
      cs ≠ [] ∧ (∀ c ∈ cs, IsDigitChar c) ∧ n = -(decimalValue cs : Int) ∧
        decimalValue cs ≤ 2 ^ 63 := by
  constructor
  · rintro ⟨sign, ds, hs, hsign, hne, hdig, hn, hlo, hhi⟩
    rcases hsign with rfl | rfl | rfl
    · simp at hs
      subst hs
      exact absurd (hdig '-' (by simp)) not_digit_minus
    · simp at hs
    · simp at hs
      subst hs
      simp at hn
      refine ⟨hne, hdig, hn, ?_⟩
      subst hn
      omega
  · rintro ⟨hne, hdig, hn, hle⟩
    refine ⟨['-'], cs, by simp, by simp, hne, hdig, by simpa using hn, ?_, ?_⟩ <;> omega

theorem isBase10_cons_plus (cs : List Char) (n : Int) :
    IsBase10 (String.mk ('+' :: cs)) n ↔
      cs ≠ [] ∧ (∀ c ∈ cs, IsDigitChar c) ∧ n = (decimalValue cs : Int) ∧
        decimalValue cs < 2 ^ 63 := by
  constructor
  · rintro ⟨sign, ds, hs, hsign, hne, hdig, hn, hlo, hhi⟩
    rcases hsign with rfl | rfl | rfl
    · simp at hs
      subst hs
      exact absurd (hdig '+' (by simp)) not_digit_plus
    · simp at hs
      subst hs
      simp at hn
      refine ⟨hne, hdig, hn, ?_⟩
      subst hn
      omega
    · simp at hs
  · rintro ⟨hne, hdig, hn, hle⟩
    refine ⟨['+'], cs, by simp, by simp, hne, hdig, by simpa using hn, ?_, ?_⟩ <;> omega

theorem isBase10_cons_other (c : Char) (cs : List Char) (n : Int) (h1 : c ≠ '-')
    (h2 : c ≠ '+') :
    IsBase10 (String.mk (c :: cs)) n ↔
      (∀ x ∈ c :: cs, IsDigitChar x) ∧ n = (decimalValue (c :: cs) : Int) ∧
        decimalValue (c :: cs) < 2 ^ 63 := by
  constructor
  · rintro ⟨sign, ds, hs, hsign, hne, hdig, hn, hlo, hhi⟩
    rcases hsign with rfl | rfl | rfl
    · simp at hs
      subst hs
      simp at hn
      refine ⟨hdig, hn, ?_⟩
      subst hn
      omega
    · simp at hs
      exact absurd hs.1 h2
    · simp at hs
      exact absurd hs.1 h1
  · rintro ⟨hdig, hn, hle⟩
    refine ⟨[], c :: cs, by simp, by simp, by simp, hdig, by simpa using hn, ?_, ?_⟩ <;> omega

theorem Atoi_ok_iff (s : String) (n : Int) : Atoi s = (n, none) ↔ IsBase10 s n := by
  obtain ⟨cs⟩ := s
  cases cs with
  | nil =>
      simp only [Atoi]
      constructor
      · intro h
        simp at h
      · rintro ⟨sign, ds, hs, _, hne, _⟩
        simp at hs
        exact absurd hs.2 hne
  | cons c cs =>
      by_cases h1 : c = '-'
      · subst h1
        rw [isBase10_cons_minus]
        simp only [Atoi, if_true]
        cases hp : parseUnsigned cs with
        | none =>
            simp
            intro hne hdig hn
            have := (parseUnsigned_eq_some cs (decimalValue cs)).mpr ⟨hne, hdig, rfl⟩
            simp [hp] at this
        | some m =>
            obtain ⟨hne, hdig, rfl⟩ := (parseUnsigned_eq_some cs m).mp hp
            by_cases hr : decimalValue cs ≤ 9223372036854775808
            · simp [hr, hne, eq_comm]
              exact fun _ => hdig
            · simp [hr]
      · by_cases h2 : c = '+'
        · subst h2
          rw [isBase10_cons_plus]
          simp only [Atoi, if_neg h1, if_true]
          cases hp : parseUnsigned cs with
          | none =>
              simp
              intro hne hdig hn
              have := (parseUnsigned_eq_some cs (decimalValue cs)).mpr ⟨hne, hdig, rfl⟩
              simp [hp] at this
          | some m =>
              obtain ⟨hne, hdig, rfl⟩ := (parseUnsigned_eq_some cs m).mp hp
              by_cases hr : decimalValue cs < 9223372036854775808
              · simp [hr, hne, eq_comm]
                exact fun _ => hdig
              · simp [hr]
        · rw [isBase10_cons_other c cs n h1 h2]
          simp only [Atoi, if_neg h1, if_neg h2]
          cases hp : parseUnsigned (c :: cs) with
          | none =>
              simp
              intro hc hdig hn
              have := (parseUnsigned_eq_some (c :: cs) (decimalValue (c :: cs))).mpr
                ⟨by simp, by simpa using ⟨hc, hdig⟩, rfl⟩
              simp [hp] at this
          | some m =>
              obtain ⟨hne, hdig, rfl⟩ := (parseUnsigned_eq_some (c :: cs) m).mp hp
              by_cases hr : decimalValue (c :: cs) < 9223372036854775808
              · have hd' := hdig
                simp only [List.mem_cons, forall_eq_or_imp] at hd'
                simp [hr, eq_comm]
                intro _ x hx
                rcases hx with rfl | hx
                · exact hd'.1
                · exact hd'.2 x hx
              · simp [hr]

theorem Atoi_error_iff (s : String) : (Atoi s).2 ≠ none ↔ ¬ ∃ n, IsBase10 s n := by
  constructor
  · rintro h ⟨n, hn⟩
    rw [← Atoi_ok_iff] at hn
    simp [hn] at h
  · intro h hnone
    apply h
    refine ⟨(Atoi s).1, (Atoi_ok_iff s _).mp ?_⟩
    rw [← hnone]

/-! ## Theorems: type conversion -/

/-- C6: for every rendered string `s`, `parseSupportedValueFromString(s, "boolean")`
returns `true` with no error exactly when `s` is the literal `true`, returns
`false` with no error exactly when `s` is the literal `false`, and returns an
error for every other string, among them `yes`, `True`, `1`, the empty string and
`true` with a leading space. -/
theorem parse_boolean_literals (unmarshal : String → Value × Option GoError) (s : String) :
    (parseSupportedValueFromString unmarshal s "boolean" = (Value.bool true, none) ↔ s = "true") ∧
    (parseSupportedValueFromString unmarshal s "boolean" = (Value.bool false, none) ↔
      s = "false") ∧
    ((parseSupportedValueFromString unmarshal s "boolean").2 ≠ none ↔
      (s ≠ "true" ∧ s ≠ "false")) ∧
    (∀ e ∈ ["yes", "True", "1", "", " true"],
      (parseSupportedValueFromString unmarshal e "boolean").2 ≠ none) := by
  have h1 : ("boolean" : String) ≠ "string" := by decide
  have h2 : ("boolean" : String) ≠ "integer" := by decide
  refine ⟨?_, ?_, ?_, ?_⟩
  · by_cases ht : s = "true"
    · simp [parseSupportedValueFromString, h1, h2, ht]
    · by_cases hf : s = "false"
      · subst hf
        simp [parseSupportedValueFromString, h1, h2]
      · simp [parseSupportedValueFromString, h1, h2, ht, hf]
  · by_cases ht : s = "true"
    · subst ht
      simp [parseSupportedValueFromString, h1, h2]
    · by_cases hf : s = "false"
      · simp [parseSupportedValueFromString, h1, h2, hf]
      · simp [parseSupportedValueFromString, h1, h2, ht, hf]
  · by_cases ht : s = "true"
    · simp [parseSupportedValueFromString, h1, h2, ht]
    · by_cases hf : s = "false"
      · subst hf
        simp [parseSupportedValueFromString, h1, h2]
      · simp [parseSupportedValueFromString, h1, h2, ht, hf]
  · intro e he
    simp only [List.mem_cons, List.mem_singleton, List.not_mem_nil, or_false] at he
    rcases he with rfl | rfl | rfl | rfl | rfl <;>
      simp [parseSupportedValueFromString, h1, h2]

/-- C7: for every rendered string `s`, `parseSupportedValueFromString(s, "integer")`
returns the integer `n` with no error exactly when `s` is a base-10 representation
of `n` (an optional sign, one or more decimal digits, `n` a machine integer), and
returns an error exactly when `s` is no such representation; `42` converts to 42,
and the empty string, text with a non-digit, a decimal point, a space or a
hexadecimal prefix are errors. -/
theorem parse_integer_base10 (unmarshal : String → Value × Option GoError) (s : String) :
    (∀ n : Int,
      parseSupportedValueFromString unmarshal s "integer" = (Value.int n, none) ↔
        IsBase10 s n) ∧
    ((parseSupportedValueFromString unmarshal s "integer").2 ≠ none ↔ ¬ ∃ n, IsBase10 s n) ∧
    parseSupportedValueFromString unmarshal "42" "integer" = (Value.int 42, none) ∧
    (∀ e ∈ ["", "4a", "4.2", "4 2", " 42", "0x2A", "+", "-"],
      (parseSupportedValueFromString unmarshal e "integer").2 ≠ none) := by
  have h1 : ("integer" : String) ≠ "string" := by decide
  have key : ∀ t : String, parseSupportedValueFromString unmarshal t "integer" =
      match Atoi t with
      | (_, some err) => (Value.null, Annotatef (some err) "can't be casted to integer")
      | (value, none) => (Value.int value, none) := by
    intro t
    simp [parseSupportedValueFromString, h1]
  refine ⟨?_, ?_, ?_, ?_⟩
  · intro n
    rw [key, ← Atoi_ok_iff]
    rcases hA : Atoi s with ⟨v, _ | e⟩
    · simp
    · simp [Annotatef]
  · rw [key, ← Atoi_error_iff]
    rcases hA : Atoi s with ⟨v, _ | e⟩
    · simp
    · simp [Annotatef]
  · rw [key]
    have : Atoi "42" = (42, none) := by decide
    rw [this]
  · intro e he
    simp only [List.mem_cons, List.mem_singleton, List.not_mem_nil, or_false] at he
    rcases he with rfl | rfl | rfl | rfl | rfl | rfl | rfl | rfl <;> rw [key] <;>
      simp [Atoi, parseUnsigned, parseDigits, digitVal, Annotatef]

/-! ## Theorems: task invocation -/

/-- C5: when the configuration provider yields a non-nil value `v` at the task's
own dotted key with type `string`, `RunTask` returns the string form of `v` with a
nil error and leaves the run state as it was: no registry lookup, no input
resolution, no validation and no task body, whatever the registry holds (also
when no task of that name is registered). -/
theorem runTask_config_override (L : Lib) (p : Application) (fuel : Nat) (taskName : TaskName)
    (args : List String) (arguments scope : Obj) (caller : List Task) (s : State) (v : Value)
    (hv : GetTmplOrTypedValueForConfigKey L.viper taskName.ShortString "string" = Res.ret v)
    (hnn : v.isNil = false) :
    RunTask L p (fuel + 1) taskName args arguments scope caller s =
      Res.ret ((L.Sprint v, none), s) := by
  simp [RunTask, hv, hnn]

theorem runTask_config_override_witness :
    RunTask (sampleLib stubViper) emptyApp 1 ⟨["deploy"]⟩ [] [] [] [] initState =
      Res.ret (("stubbed", none), initState) :=
  runTask_config_override (sampleLib stubViper) emptyApp 0 ⟨["deploy"]⟩ [] [] [] [] initState
    (Value.str "stubbed") (by rfl) (by rfl)

theorem validateAndRun_invalid (L : Lib) (taskName : TaskName) (taskDef : Task) (vars : Obj)
    (caller : List Task) (s : State) (schema : Value) (violations : List String)
    (err : Option GoError)
    (hschema : jsonschemaFromInputs L taskDef.Inputs = (schema, none))
    (hval : L.Validate schema (L.Flatten vars) = (some violations, err))
    (hbad : violations ≠ []) :
    validateAndRun L taskName taskDef vars caller s =
      Res.ret (("", Annotatef err "app failed validating inputs"),
        s.log (Event.validate taskName)) := by
  simp [validateAndRun, hschema, hval, hbad]

/-- C1 (the code at a failing input): the task `deploy` declares the integer input
`replicas`, and the configuration section `deploy` holds `replicas: true`.  The
inputs resolve without error, validation reports a violation with a nil validator
error, and `RunTask` returns the empty output with a nil error; the task runner is
neither constructed nor run. -/
theorem runTask_schema_violation_returns_nil_error :
    RunTask (sampleLib sectionViper) (sampleApp scaleTask) 2 ⟨["deploy"]⟩ [] [] [] []
        initState =
      Res.ret (("", none),
        { CachedTaskOutputs := [],
          trace := [Event.findTask ⟨["deploy"]⟩, Event.findTask ⟨["deploy"]⟩,
                    Event.validate ⟨["deploy"]⟩] }) ∧
    InheritedInputValuesForTaskKey (sampleLib sectionViper) (sampleApp scaleTask)
        (RunTask (sampleLib sectionViper) (sampleApp scaleTask) 1) ⟨["deploy"]⟩ [] [] [] []
        (initState.log (Event.findTask ⟨["deploy"]⟩)) =
      Res.ret (([("replicas", Value.bool true)], none),
        { CachedTaskOutputs := [],
          trace := [Event.findTask ⟨["deploy"]⟩, Event.findTask ⟨["deploy"]⟩] }) ∧
    (sampleLib sectionViper).Validate
        (jsonschemaFromInputs (sampleLib sectionViper) scaleTask.Inputs).1
        ((sampleLib sectionViper).Flatten
          (buildVars (sampleApp scaleTask) [] [("replicas", Value.bool true)])) =
      (some ["replicas"], none) := by
  refine ⟨?_, ?_, ?_⟩ <;> rfl

/-! ## Lemmas: resolution of one input -/

@[simp]
theorem isNil_null : Value.null.isNil = true := rfl

@[simp]
theorem isNil_str (e : String) : (Value.str e).isNil = false := rfl

theorem wrapInt64_of_range (x : Int) (h0 : -(2 : Int) ^ 63 ≤ x) (h1 : x < (2 : Int) ^ 63) :
    wrapInt64 x = x := by
  unfold wrapInt64
  omega

theorem parse_error_null (u : String → Value × Option GoError) (r t : String) :
    (match parseSupportedValueFromString u r t with
      | (_, some err) => (Value.null, some err)
      | (value, none) => (value, none)) = parseSupportedValueFromString u r t := by
  unfold parseSupportedValueFromString
  split_ifs
  · rfl
  · rcases Atoi r with ⟨v, _ | e⟩ <;> simp [Annotatef]
  · rfl
  · rfl
  · rfl
  · rcases u r with ⟨v, _ | e⟩ <;> simp [Annotatef]
  · rfl

theorem renderAndType_str (L : Lib) (currentTask : Task) (scope : Obj) (input : Input)
    (e : String) :
    renderAndType L currentTask scope input (Value.str e) =
      match L.Render currentTask scope e input.Name with
      | (_, some err) => (Value.null, Annotatef (some err) "failed to render task template")
      | (r, none) => parseSupportedValueFromString L.Unmarshal r input.TypeName := by
  simp only [renderAndType, Value.isNil]
  rcases L.Render currentTask scope e input.Name with ⟨r, _ | err⟩
  · simpa using parse_error_null L.Unmarshal r input.TypeName
  · simp

theorem renderAndType_not_str (L : Lib) (currentTask : Task) (scope : Obj) (input : Input)
    (v : Value) (hs : v.asString = none) :
    renderAndType L currentTask scope input v = (v, none) := by
  cases v <;> simp_all [renderAndType, Value.isNil, Value.asString]

theorem namedArg_of_nonnil (input : Input) (arguments : Obj) (t : Value)
    (ht : t.isNil = false) : namedArg input arguments t = t := by
  simp [namedArg, ht]

theorem configArg_of_nonnil (L : Lib) (taskName : TaskName) (baseTaskKey : String)
    (input : Input) (t : Value) (ht : t.isNil = false) :
    configArg L taskName baseTaskKey input t = Res.ret t := by
  simp [configArg, ht, Res.bind]

theorem resolveInput_of_raw (L : Lib) (run : RunTaskFn) (taskName : TaskName)
    (currentTask : Task) (baseTaskKey : String) (args : List String) (arguments scope : Obj)
    (input : Input) (s : State) (t : Value)
    (hraw : rawFromSources L taskName baseTaskKey input args arguments = Res.ret t)
    (ht : t.isNil = false) :
    resolveInput L run taskName currentTask baseTaskKey args arguments scope input s =
      Res.ret (renderAndType L currentTask scope input t, s) := by
  simp [resolveInput, hraw, ht]

theorem resolveInputs_cons_ok (L : Lib) (run : RunTaskFn) (taskName : TaskName)
    (currentTask : Task) (baseTaskKey : String) (args : List String) (arguments scope : Obj)
    (input : Input) (rest : List Input) (values : Obj) (s s1 : State) (v : Value)
    (h : resolveInput L run taskName currentTask baseTaskKey args arguments scope input s =
      Res.ret ((v, none), s1)) :
    resolveInputs L run taskName currentTask baseTaskKey args arguments scope (input :: rest)
        values s =
      resolveInputs L run taskName currentTask baseTaskKey args arguments scope rest
        (SetValueAtPath values (SplitDot input.Name) v) s1 := by
  simp [resolveInputs, h]

theorem resolveInputs_cons_error (L : Lib) (run : RunTaskFn) (taskName : TaskName)
    (currentTask : Task) (baseTaskKey : String) (args : List String) (arguments scope : Obj)
    (input : Input) (rest : List Input) (values : Obj) (s s1 : State) (v : Value)
    (err : GoError)
    (h : resolveInput L run taskName currentTask baseTaskKey args arguments scope input s =
      Res.ret ((v, some err), s1)) :
    resolveInputs L run taskName currentTask baseTaskKey args arguments scope (input :: rest)
        values s = Res.ret (([], some err), s1) := by
  simp [resolveInputs, h]

theorem positionalArg_of_index (input : Input) (args : List String) (i : Nat) (a : String)
    (hidx : input.ArgumentIndex = some (i : Int)) (ha : args[i]? = some a)
    (hmach : args.length < 2 ^ 63) :
    positionalArg input args = Res.ret (Value.str a) := by
  have hi : i < args.length := by
    rcases Nat.lt_or_ge i args.length with h | h
    · exact h
    · rw [List.getElem?_eq_none h] at ha
      cases ha
  have hw : wrapInt64 ((i : Int) + 1) = (i : Int) + 1 :=
    wrapInt64_of_range _ (by omega) (by omega)
  have hc : (args.length : Int) ≥ (i : Int) + 1 := by omega
  simp [positionalArg, hidx, hw, hc, ha]

/-! ## Theorems: precedence of the value sources -/

/-- C3: in `DirectInputValuesForTaskKey`, for an input whose `ArgumentIndex` is set
to `i` and an argument list holding `args[i]`, the raw value chosen is `args[i]`,
whatever the named arguments, the configuration store and the default hold; the
value stored for the input is `args[i]` rendered and converted to the declared
type, and a failure of either fails the resolution.  The length of the argument
slice is a machine integer. -/
theorem positional_argument_wins (L : Lib) (run : RunTaskFn) (taskName : TaskName)
    (currentTask : Task) (baseTaskKey : String) (args : List String) (arguments scope : Obj)
    (input : Input) (s : State) (i : Nat) (a : String)
    (hidx : input.ArgumentIndex = some (i : Int)) (ha : args[i]? = some a)
    (hmach : args.length < 2 ^ 63) :
    rawFromSources L taskName baseTaskKey input args arguments = Res.ret (Value.str a) ∧
    resolveInput L run taskName currentTask baseTaskKey args arguments scope input s =
      Res.ret
        ((match L.Render currentTask scope a input.Name with
          | (_, some err) => (Value.null, Annotatef (some err) "failed to render task template")
          | (r, none) => parseSupportedValueFromString L.Unmarshal r input.TypeName), s) ∧
    (∀ (r : String) (v : Value) (rest : List Input) (values : Obj),
      L.Render currentTask scope a input.Name = (r, none) →
      parseSupportedValueFromString L.Unmarshal r input.TypeName = (v, none) →
      resolveInputs L run taskName currentTask baseTaskKey args arguments scope
          (input :: rest) values s =
        resolveInputs L run taskName currentTask baseTaskKey args arguments scope rest
          (SetValueAtPath values (SplitDot input.Name) v) s) := by
  have hraw : rawFromSources L taskName baseTaskKey input args arguments =
      Res.ret (Value.str a) := by
    simp [rawFromSources, positionalArg_of_index input args i a hidx ha hmach, Res.bind,
      namedArg_of_nonnil, configArg_of_nonnil]
  have hres := resolveInput_of_raw L run taskName currentTask baseTaskKey args arguments scope
    input s (Value.str a) hraw rfl
  rw [renderAndType_str] at hres
  refine ⟨hraw, hres, ?_⟩
  intro r v rest values hr hp
  apply resolveInputs_cons_ok
  rw [hres, hr]
  simp only [hp]

theorem positional_argument_wins_witness :
    rawFromSources (sampleLib sectionViper) ⟨["deploy"]⟩ "" positionalInput ["5"]
      [("replicas", Value.int 9)] = Res.ret (Value.str "5") :=
  (positional_argument_wins (sampleLib sectionViper) noRun ⟨["deploy"]⟩ scaleTask "" ["5"]
    [("replicas", Value.int 9)] [] positionalInput initState 0 "5" rfl rfl (by decide)).1

/-- C8: in `DirectInputValuesForTaskKey`, for an input with no matching positional
argument, when the named-argument lookup by the input's `Name` succeeds with a
non-nil value `v`, the raw value chosen is `v`, whatever is held under its `ShortName`, in
the configuration store and in its default, and the value stored is `v` rendered
and typed.  For the task `deploy` with the inputs `region` (string, no default)
and `replicas` (integer, default 3), no positional argument and the named
argument `region` set to `us-east-1` resolve to `region = us-east-1`,
`replicas = 3`. -/
theorem named_argument_precedes (L : Lib) (run : RunTaskFn) (taskName : TaskName)
    (currentTask : Task) (baseTaskKey : String) (args : List String) (arguments scope : Obj)
    (input : Input) (s : State) (v : Value)
    (hpos : ∀ i, input.ArgumentIndex = some i → (args.length : Int) < wrapInt64 (i + 1))
    (hget : ArgumentsGet arguments input.Name = (v, none))
    (hv : v.isNil = false) :
    rawFromSources L taskName baseTaskKey input args arguments = Res.ret v ∧
    resolveInput L run taskName currentTask baseTaskKey args arguments scope input s =
      Res.ret (renderAndType L currentTask scope input v, s) ∧
    (∀ (run0 : RunTaskFn) (s0 : State),
      DirectInputValuesForTaskKey (plainLib emptyViper) (sampleApp deployTask) run0
          ⟨["deploy"]⟩ [] [("region", Value.str "us-east-1")] [] [] s0 =
        Res.ret (([("region", Value.str "us-east-1"), ("replicas", Value.int 3)], none),
          s0.log (Event.findTask ⟨["deploy"]⟩))) := by
  have hp : positionalArg input args = Res.ret Value.null := by
    unfold positionalArg
    cases hidx : input.ArgumentIndex with
    | none => rfl
    | some i =>
        have := hpos i hidx
        simp [not_le.mpr this]
  have hn : namedArg input arguments Value.null = v := by
    simp [namedArg, hget, hv]
  have hraw : rawFromSources L taskName baseTaskKey input args arguments = Res.ret v := by
    simp [rawFromSources, hp, Res.bind, hn, configArg_of_nonnil, hv]
  refine ⟨hraw, resolveInput_of_raw L run taskName currentTask baseTaskKey args arguments scope
    input s v hraw hv, ?_⟩
  intro run0 s0
  rfl

theorem named_argument_precedes_witness :
    rawFromSources (sampleLib sectionViper) ⟨["deploy"]⟩ "" replicasInput []
      [("replicas", Value.int 9)] = Res.ret (Value.int 9) :=
  (named_argument_precedes (sampleLib sectionViper) noRun ⟨["deploy"]⟩ scaleTask "" []
    [("replicas", Value.int 9)] [] replicasInput initState (Value.int 9)
    (by intro i hi; cases hi) rfl rfl).1

theorem resolveInput_of_default (L : Lib) (run : RunTaskFn) (taskName : TaskName)
    (currentTask : Task) (baseTaskKey : String) (args : List String) (arguments scope : Obj)
    (input : Input) (s : State) (value : Value)
    (hraw : rawFromSources L taskName baseTaskKey input args arguments = Res.ret Value.null)
    (hdef : staticDefault input = (value, none)) (hv : value.isNil = false) :
    resolveInput L run taskName currentTask baseTaskKey args arguments scope input s =
      Res.ret ((value, none), s) := by
  simp [resolveInput, hraw, hdef, hv]

theorem resolveInput_of_default_error (L : Lib) (run : RunTaskFn) (taskName : TaskName)
    (currentTask : Task) (baseTaskKey : String) (args : List String) (arguments scope : Obj)
    (input : Input) (s : State) (value : Value) (err : GoError)
    (hraw : rawFromSources L taskName baseTaskKey input args arguments = Res.ret Value.null)
    (hdef : staticDefault input = (value, some err)) :
    resolveInput L run taskName currentTask baseTaskKey args arguments scope input s =
      Res.ret ((Value.null, some err), s) := by
  simp [resolveInput, hraw, hdef]

/-- C9: in `DirectInputValuesForTaskKey`, for an input for which the positional,
named-argument and configuration sources all yield nothing and whose `Default` is
set, the value stored is the default converted per `TypeName` (`string`,
`integer`, `boolean`, and `array` or `object` when the default parses), and the
run state is left as it was: the output cache is neither read nor written and
`RunTask` is not invoked, whatever the dependency task would do.  When the
`TypeName` is none of the five, the resolution fails with an error. -/
theorem default_precedes_dependency (L : Lib) (run : RunTaskFn) (taskName : TaskName)
    (currentTask : Task) (baseTaskKey : String) (args : List String) (arguments scope : Obj)
    (input : Input) (s : State)
    (hraw : rawFromSources L taskName baseTaskKey input args arguments = Res.ret Value.null)
    (hdef : input.Default.isNil = false) :
    (input.TypeName = "string" →
      resolveInput L run taskName currentTask baseTaskKey args arguments scope input s =
        Res.ret ((Value.str input.DefaultAsString, none), s)) ∧
    (input.TypeName = "integer" →
      resolveInput L run taskName currentTask baseTaskKey args arguments scope input s =
        Res.ret ((Value.int input.DefaultAsInt, none), s)) ∧
    (input.TypeName = "boolean" →
      resolveInput L run taskName currentTask baseTaskKey args arguments scope input s =
        Res.ret ((Value.bool input.DefaultAsBool, none), s)) ∧
    (input.TypeName = "array" → ∀ v, input.DefaultAsArray = (v, none) →
      resolveInput L run taskName currentTask baseTaskKey args arguments scope input s =
        Res.ret ((Value.arr v, none), s)) ∧
    (input.TypeName = "object" → ∀ v, input.DefaultAsObject = (v, none) →
      resolveInput L run taskName currentTask baseTaskKey args arguments scope input s =
        Res.ret ((Value.obj v, none), s)) ∧
    (input.TypeName ≠ "string" → input.TypeName ≠ "integer" → input.TypeName ≠ "boolean" →
      input.TypeName ≠ "array" → input.TypeName ≠ "object" →
      ∃ err : GoError,
        resolveInput L run taskName currentTask baseTaskKey args arguments scope input s =
          Res.ret ((Value.null, some err), s) ∧
        ∀ (rest : List Input) (values : Obj),
          resolveInputs L run taskName currentTask baseTaskKey args arguments scope
            (input :: rest) values s = Res.ret (([], some err), s)) := by
  refine ⟨?_, ?_, ?_, ?_, ?_, ?_⟩
  · intro ht
    exact resolveInput_of_default L run taskName currentTask baseTaskKey args arguments scope
      input s _ hraw (by simp [staticDefault, hdef, ht]) rfl
  · intro ht
    exact resolveInput_of_default L run taskName currentTask baseTaskKey args arguments scope
      input s _ hraw (by simp [staticDefault, hdef, ht]) rfl
  · intro ht
    exact resolveInput_of_default L run taskName currentTask baseTaskKey args arguments scope
      input s _ hraw (by simp [staticDefault, hdef, ht]) rfl
  · intro ht v hv
    exact resolveInput_of_default L run taskName currentTask baseTaskKey args arguments scope
      input s _ hraw (by simp [staticDefault, hdef, ht, hv]) rfl
  · intro ht v hv
    exact resolveInput_of_default L run taskName currentTask baseTaskKey args arguments scope
      input s _ hraw (by simp [staticDefault, hdef, ht, hv]) rfl
  · intro h1 h2 h3 h4 h5
    have hres := resolveInput_of_default_error L run taskName currentTask baseTaskKey args
      arguments scope input s Value.null _ hraw
      (by simp [staticDefault, hdef, h1, h2, h3, h4, h5]; rfl)
    exact ⟨_, hres, fun rest values =>
      resolveInputs_cons_error L run taskName currentTask baseTaskKey args arguments scope
        input rest values s s Value.null _ hres⟩

theorem default_precedes_dependency_witness :
    resolveInput (plainLib emptyViper) noRun ⟨["deploy"]⟩ scaleTask "" [] [] [] replicasInput
        initState = Res.ret ((Value.int 3, none), initState) :=
  (default_precedes_dependency (plainLib emptyViper) noRun ⟨["deploy"]⟩ scaleTask "" [] [] []
    replicasInput initState rfl rfl).2.1 rfl

/-! ## Lemmas: the dependency fallback -/

theorem dependencyFallback_hit (run : RunTaskFn) (currentTask : Task) (arguments : Obj)
    (input : Input) (path : List String) (s : State) (o : Value)
    (hget : GetValueAtPath s.CachedTaskOutputs path = (o, none)) (ho : o.isNil = false) :
    dependencyFallback run currentTask arguments input path s =
      Res.ret ((o, none), s.log (Event.cacheRead path)) := by
  simp [dependencyFallback, hget, ho]

theorem dependencyFallback_miss_ok (run : RunTaskFn) (currentTask : Task) (arguments : Obj)
    (input : Input) (path : List String) (s s2 : State) (out : String)
    (hget : (GetValueAtPath s.CachedTaskOutputs path).1.isNil = true)
    (hrun : run input.TaskKey [] (ArgumentsGetSubOrEmpty arguments input.Name) [] [currentTask]
      ((s.log (Event.cacheRead path)).log (Event.runTask input.TaskKey)) =
        Res.ret ((out, none), s2)) :
    dependencyFallback run currentTask arguments input path s =
      Res.ret ((Value.str out, none),
        { CachedTaskOutputs := SetValueAtPath s2.CachedTaskOutputs path (Value.str out),
          trace := s2.trace ++ [Event.cacheWrite path] }) := by
  rcases hg : GetValueAtPath s.CachedTaskOutputs path with ⟨o, e⟩
  rw [hg] at hget
  simp only at hget
  simp [dependencyFallback, hg, hget, hrun]

theorem resolveInput_of_fallback (L : Lib) (run : RunTaskFn) (taskName : TaskName)
    (currentTask : Task) (baseTaskKey : String) (args : List String) (arguments scope : Obj)
    (input : Input) (s s2 : State) (v : Value)
    (hraw : rawFromSources L taskName baseTaskKey input args arguments = Res.ret Value.null)
    (hdef : staticDefault input = (Value.null, none))
    (hfb : dependencyFallback run currentTask arguments input (SplitDot input.Name) s =
      Res.ret ((v, none), s2)) :
    resolveInput L run taskName currentTask baseTaskKey args arguments scope input s =
      Res.ret (renderAndType L currentTask scope input v, s2) := by
  simp [resolveInput, hraw, hdef, hfb]

theorem renderAndType_str_eq (L : Lib) (currentTask : Task) (scope : Obj) (input : Input)
    (e : String) :
    renderAndType L currentTask scope input (Value.str e) =
      renderThenConvert L currentTask scope input e := by
  rw [renderAndType_str, renderThenConvert]

/-! ## Theorems: rendering and typing -/

/-- C10 (the claim at a failing input): the input `banner` of type `string` has
the static default `hello`, and the renderer prefixes its expression with
`rendered:`.  The value stored for the input is the default `hello` as it is,
not the default rendered and converted. -/
theorem string_default_not_rendered :
    resolveInput (sampleLib emptyViper) noRun ⟨["deploy"]⟩ bannerTask "" [] [] [] bannerInput
        initState = Res.ret ((Value.str "hello", none), initState) ∧
    renderThenConvert (sampleLib emptyViper) bannerTask [] bannerInput "hello" =
      (Value.str "rendered:hello", none) ∧
    resolveInput (sampleLib emptyViper) noRun ⟨["deploy"]⟩ bannerTask "" [] [] [] bannerInput
        initState ≠
      Res.ret (renderThenConvert (sampleLib emptyViper) bannerTask [] bannerInput "hello",
        initState) := by
  have h1 : resolveInput (sampleLib emptyViper) noRun ⟨["deploy"]⟩ bannerTask "" [] [] []
      bannerInput initState = Res.ret ((Value.str "hello", none), initState) := rfl
  have h2 : renderThenConvert (sampleLib emptyViper) bannerTask [] bannerInput "hello" =
      (Value.str "rendered:hello", none) := rfl
  refine ⟨h1, h2, ?_⟩
  rw [h1, h2]
  intro h
  injection h with h
  injection h with h _
  injection h with h _
  injection h with h
  exact absurd h (by decide)

/-- C10 (amended): in `DirectInputValuesForTaskKey`, a raw value produced by the
positional, named-argument or configuration sources, or by the dependency
fallback (a cached output or the fresh output of the dependency task), is stored
rendered then converted when it is a string `e`, and stored as it is when it is
not a string; a static default of type `string` is stored as the default itself,
without rendering. -/
theorem raw_string_rendered_then_converted (L : Lib) (run : RunTaskFn) (taskName : TaskName)
    (currentTask : Task) (baseTaskKey : String) (args : List String) (arguments scope : Obj)
    (input : Input) (s : State) :
    (∀ e : String,
      rawFromSources L taskName baseTaskKey input args arguments = Res.ret (Value.str e) →
      resolveInput L run taskName currentTask baseTaskKey args arguments scope input s =
        Res.ret (renderThenConvert L currentTask scope input e, s)) ∧
    (∀ t : Value,
      rawFromSources L taskName baseTaskKey input args arguments = Res.ret t →
      t.isNil = false → t.asString = none →
      resolveInput L run taskName currentTask baseTaskKey args arguments scope input s =
        Res.ret ((t, none), s)) ∧
    (rawFromSources L taskName baseTaskKey input args arguments = Res.ret Value.null →
      staticDefault input = (Value.null, none) →
      (∀ e : String,
        GetValueAtPath s.CachedTaskOutputs (SplitDot input.Name) = (Value.str e, none) →
        resolveInput L run taskName currentTask baseTaskKey args arguments scope input s =
          Res.ret (renderThenConvert L currentTask scope input e,
            s.log (Event.cacheRead (SplitDot input.Name)))) ∧
      (∀ o : Value,
        GetValueAtPath s.CachedTaskOutputs (SplitDot input.Name) = (o, none) →
        o.isNil = false → o.asString = none →
        resolveInput L run taskName currentTask baseTaskKey args arguments scope input s =
          Res.ret ((o, none), s.log (Event.cacheRead (SplitDot input.Name)))) ∧
      (∀ (out : String) (s2 : State),
        (GetValueAtPath s.CachedTaskOutputs (SplitDot input.Name)).1.isNil = true →
        run input.TaskKey [] (ArgumentsGetSubOrEmpty arguments input.Name) [] [currentTask]
          ((s.log (Event.cacheRead (SplitDot input.Name))).log (Event.runTask input.TaskKey)) =
            Res.ret ((out, none), s2) →
        resolveInput L run taskName currentTask baseTaskKey args arguments scope input s =
          Res.ret (renderThenConvert L currentTask scope input out,
            { CachedTaskOutputs :=
                SetValueAtPath s2.CachedTaskOutputs (SplitDot input.Name) (Value.str out),
              trace := s2.trace ++ [Event.cacheWrite (SplitDot input.Name)] }))) ∧
    (rawFromSources L taskName baseTaskKey input args arguments = Res.ret Value.null →
      input.Default.isNil = false → input.TypeName = "string" →
      resolveInput L run taskName currentTask baseTaskKey args arguments scope input s =
        Res.ret ((Value.str input.DefaultAsString, none), s)) := by
  refine ⟨?_, ?_, ?_, ?_⟩
  · intro e hraw
    rw [resolveInput_of_raw L run taskName currentTask baseTaskKey args arguments scope input s
      _ hraw rfl, renderAndType_str_eq]
  · intro t hraw ht hs
    rw [resolveInput_of_raw L run taskName currentTask baseTaskKey args arguments scope input s
      _ hraw ht, renderAndType_not_str _ _ _ _ _ hs]
  · intro hraw hdef
    refine ⟨?_, ?_, ?_⟩
    · intro e hget
      rw [resolveInput_of_fallback L run taskName currentTask baseTaskKey args arguments scope
        input s _ _ hraw hdef (dependencyFallback_hit run currentTask arguments input _ s _ hget
          rfl), renderAndType_str_eq]
    · intro o hget ho hs
      rw [resolveInput_of_fallback L run taskName currentTask baseTaskKey args arguments scope
        input s _ _ hraw hdef (dependencyFallback_hit run currentTask arguments input _ s _ hget
          ho), renderAndType_not_str _ _ _ _ _ hs]
    · intro out s2 hget hrun
      rw [resolveInput_of_fallback L run taskName currentTask baseTaskKey args arguments scope
        input s _ _ hraw hdef (dependencyFallback_miss_ok run currentTask arguments input _ s s2
          out hget hrun), renderAndType_str_eq]
  · intro hraw hdef ht
    exact resolveInput_of_default L run taskName currentTask baseTaskKey args arguments scope
      input s _ hraw (by simp [staticDefault, hdef, ht]) rfl

theorem raw_string_rendered_then_converted_witness :
    resolveInput (sampleLib emptyViper) noRun ⟨["deploy"]⟩ scaleTask "" ["5"] [] []
        positionalInput initState =
      Res.ret (renderThenConvert (sampleLib emptyViper) scaleTask [] positionalInput "5",
        initState) :=
  (raw_string_rendered_then_converted (sampleLib emptyViper) noRun ⟨["deploy"]⟩ scaleTask ""
    ["5"] [] [] positionalInput initState).1 "5" rfl

/-! ## Lemmas: nested maps -/

theorem lookupKey_setKey_same (k : String) (v : Value) (m : Obj) :
    lookupKey k (setKey k v m) = v := by
  induction m with
  | nil => simp [setKey, lookupKey]
  | cons kv rest ih =>
      obtain ⟨k', v'⟩ := kv
      by_cases h : k' = k
      · simp [setKey, lookupKey, h]
      · simp [setKey, lookupKey, h, ih]

theorem lookupKey_setKey_other (k k0 : String) (v : Value) (m : Obj) (h : k0 ≠ k) :
    lookupKey k (setKey k0 v m) = lookupKey k m := by
  induction m with
  | nil => simp [setKey, lookupKey, h]
  | cons kv rest ih =>
      obtain ⟨k', v'⟩ := kv
      by_cases h1 : k' = k0
      · subst h1
        simp [setKey, lookupKey, h]
      · by_cases h2 : k' = k
        · subst h2
          simp [setKey, lookupKey, h1]
        · simp [setKey, lookupKey, h1, h2, ih]

theorem getValueAtPath_setValueAtPath (path : List String) (m : Obj) (v : Value)
    (hp : path ≠ []) : GetValueAtPath (SetValueAtPath m path v) path = (v, none) := by
  induction path generalizing m with
  | nil => exact absurd rfl hp
  | cons k rest ih =>
      cases rest with
      | nil => simp [SetValueAtPath, GetValueAtPath, lookupKey_setKey_same]
      | cons k2 rest2 =>
          simp only [SetValueAtPath, GetValueAtPath, lookupKey_setKey_same]
          exact ih _ (by simp)

theorem splitChars_ne_nil (sep : Char) (cs : List Char) : splitChars sep cs ≠ [] := by
  induction cs with
  | nil => simp [splitChars]
  | cons c cs ih =>
      unfold splitChars
      split
      · simp
      · split <;> simp

theorem SplitDot_ne_nil (s : String) : SplitDot s ≠ [] := by
  simp [SplitDot, splitChars_ne_nil]

/-! ## Lemmas: inputs resolved without the dependency fallback -/

theorem resolveInput_of_resolvedWithoutDependency (L : Lib) (run : RunTaskFn)
    (taskName : TaskName) (currentTask : Task) (baseTaskKey : String) (args : List String)
    (arguments scope : Obj) (m : Input)
    (hm : resolvedWithoutDependency L taskName currentTask baseTaskKey args arguments scope m)
    (st : State) :
    ∃ v : Value,
      resolveInput L run taskName currentTask baseTaskKey args arguments scope m st =
        Res.ret ((v, none), st) := by
  obtain ⟨t, hraw, h⟩ := hm
  rcases h with ⟨ht, hr⟩ | ⟨ht, value, hdef, hv⟩
  · refine ⟨(renderAndType L currentTask scope m t).1, ?_⟩
    rw [resolveInput_of_raw L run taskName currentTask baseTaskKey args arguments scope m st t
      hraw ht]
    rcases hrt : renderAndType L currentTask scope m t with ⟨v, e⟩
    rw [hrt] at hr
    simp only at hr
    rw [hr]
  · have ht0 : t = Value.null := by
      cases t <;> simp_all [Value.isNil]
    subst ht0
    exact ⟨value, resolveInput_of_default L run taskName currentTask baseTaskKey args arguments
      scope m st value hraw hdef hv⟩

theorem resolveInputs_without_dependency (L : Lib) (run : RunTaskFn) (taskName : TaskName)
    (currentTask : Task) (baseTaskKey : String) (args : List String) (arguments scope : Obj) :
    ∀ (mid : List Input),
      (∀ m ∈ mid,
        resolvedWithoutDependency L taskName currentTask baseTaskKey args arguments scope m) →
      ∀ (values : Obj) (st : State), ∃ values2 : Obj, ∀ rest : List Input,
        resolveInputs L run taskName currentTask baseTaskKey args arguments scope (mid ++ rest)
            values st =
          resolveInputs L run taskName currentTask baseTaskKey args arguments scope rest
            values2 st := by
  intro mid
  induction mid with
  | nil => intro _ values st; exact ⟨values, fun rest => rfl⟩
  | cons m mid ih =>
      intro hmid values st
      obtain ⟨v, hv⟩ := resolveInput_of_resolvedWithoutDependency L run taskName currentTask
        baseTaskKey args arguments scope m (hmid m (by simp)) st
      obtain ⟨values2, h2⟩ := ih (fun x hx => hmid x (by simp [hx]))
        (SetValueAtPath values (SplitDot m.Name) v) st
      refine ⟨values2, fun rest => ?_⟩
      rw [List.cons_append, resolveInputs_cons_ok L run taskName currentTask baseTaskKey args
        arguments scope m (mid ++ rest) values st st v hv]
      exact h2 rest

/-! ## Theorems: the output cache -/

/-- C2 (the claim at a failing input): the task `t` declares the input `p`, produced
by the task `d.k`, and the parent `d` of that task declares the input `p` as well,
produced by the task `q`.  One run of `t` makes two fallback resolutions at the
path `p`: the second starts while the dependency task of the first is running, so
the cache holds nothing at `p` yet, a task is run for it too, and it does not use
the output of the first; the entry it stores is overwritten when the first
returns. -/
theorem reentrant_resolution_runs_twice :
    RunTask namingLib reentrantApp 4 ⟨["t"]⟩ [] [] [] [] initState =
      Res.ret (("out-t", none),
        { CachedTaskOutputs := [("p", Value.str "out-d.k")],
          trace := [Event.findTask ⟨["t"]⟩, Event.findTask ⟨["t"]⟩, Event.cacheRead ["p"],
            Event.runTask ⟨["d", "k"]⟩, Event.findTask ⟨["d", "k"]⟩,
            Event.findTask ⟨["d", "k"]⟩, Event.findTask ⟨["d"]⟩, Event.cacheRead ["p"],
            Event.runTask ⟨["q"]⟩, Event.findTask ⟨["q"]⟩, Event.findTask ⟨["q"]⟩,
            Event.validate ⟨["q"]⟩, Event.newTaskRunner ⟨["q"]⟩, Event.runBody ⟨["q"]⟩,
            Event.cacheWrite ["p"], Event.validate ⟨["d", "k"]⟩,
            Event.newTaskRunner ⟨["d", "k"]⟩, Event.runBody ⟨["d", "k"]⟩,
            Event.cacheWrite ["p"], Event.validate ⟨["t"]⟩, Event.newTaskRunner ⟨["t"]⟩,
            Event.runBody ⟨["t"]⟩] }) := by
  rfl

/-- C2 (amended): for an input that reaches the dependency fallback of
`DirectInputValuesForTaskKey` with the dotted path `P` of its `Name`: when the
cache holds a non-nil entry at `P`, `RunTask` is not invoked (the only call
recorded is the cache read, whatever the dependency task would do) and the raw
value is the cached entry; when it holds none and the dependency `RunTask`
succeeds with the output `o`, the cache holds `o` at `P` afterwards.  Hence, in
the loop over the inputs of a task, a second input with the same path that comes
after the first, with between them only inputs resolved without the dependency
fallback, is resolved from the output of the first: between the return of the
dependency task and the rest of the loop the only calls recorded are the cache
write and the cache read, and the value stored for the second input is the output
of the first, rendered and typed. -/
theorem dependency_output_cached_and_reused (L : Lib) (run : RunTaskFn) (taskName : TaskName)
    (currentTask : Task) (baseTaskKey : String) (args : List String) (arguments scope : Obj)
    (input : Input) (s : State) :
    (∀ o : Value,
      GetValueAtPath s.CachedTaskOutputs (SplitDot input.Name) = (o, none) → o.isNil = false →
      dependencyFallback run currentTask arguments input (SplitDot input.Name) s =
        Res.ret ((o, none), s.log (Event.cacheRead (SplitDot input.Name)))) ∧
    (∀ (out : String) (s2 : State),
      (GetValueAtPath s.CachedTaskOutputs (SplitDot input.Name)).1.isNil = true →
      run input.TaskKey [] (ArgumentsGetSubOrEmpty arguments input.Name) [] [currentTask]
        ((s.log (Event.cacheRead (SplitDot input.Name))).log (Event.runTask input.TaskKey)) =
          Res.ret ((out, none), s2) →
      ∃ s3 : State,
        dependencyFallback run currentTask arguments input (SplitDot input.Name) s =
          Res.ret ((Value.str out, none), s3) ∧
        GetValueAtPath s3.CachedTaskOutputs (SplitDot input.Name) = (Value.str out, none) ∧
        s3.trace = s2.trace ++ [Event.cacheWrite (SplitDot input.Name)]) ∧
    (∀ (out : String) (s2 : State) (v1 v2 : Value) (input2 : Input) (mid rest : List Input)
        (values : Obj),
      rawFromSources L taskName baseTaskKey input args arguments = Res.ret Value.null →
      staticDefault input = (Value.null, none) →
      rawFromSources L taskName baseTaskKey input2 args arguments = Res.ret Value.null →
      staticDefault input2 = (Value.null, none) →
      SplitDot input2.Name = SplitDot input.Name →
      (GetValueAtPath s.CachedTaskOutputs (SplitDot input.Name)).1.isNil = true →
      run input.TaskKey [] (ArgumentsGetSubOrEmpty arguments input.Name) [] [currentTask]
        ((s.log (Event.cacheRead (SplitDot input.Name))).log (Event.runTask input.TaskKey)) =
          Res.ret ((out, none), s2) →
      renderAndType L currentTask scope input (Value.str out) = (v1, none) →
      renderAndType L currentTask scope input2 (Value.str out) = (v2, none) →
      (∀ m ∈ mid,
        resolvedWithoutDependency L taskName currentTask baseTaskKey args arguments scope m) →
      ∃ values2 : Obj,
        resolveInputs L run taskName currentTask baseTaskKey args arguments scope
            (input :: (mid ++ input2 :: rest)) values s =
          resolveInputs L run taskName currentTask baseTaskKey args arguments scope rest
            (SetValueAtPath values2 (SplitDot input2.Name) v2)
            { CachedTaskOutputs :=
                SetValueAtPath s2.CachedTaskOutputs (SplitDot input.Name) (Value.str out),
              trace := s2.trace ++ [Event.cacheWrite (SplitDot input.Name),
                Event.cacheRead (SplitDot input.Name)] }) := by
  refine ⟨?_, ?_, ?_⟩
  · intro o hget ho
    exact dependencyFallback_hit run currentTask arguments input _ s o hget ho
  · intro out s2 hget hrun
    exact ⟨_, dependencyFallback_miss_ok run currentTask arguments input _ s s2 out hget hrun,
      getValueAtPath_setValueAtPath (SplitDot input.Name) s2.CachedTaskOutputs
        (Value.str out) (SplitDot_ne_nil input.Name), rfl⟩
  · intro out s2 v1 v2 input2 mid rest values hraw1 hdef1 hraw2 hdef2 hpath hmiss hrun hr1 hr2
      hmid
    have h1 := resolveInput_of_fallback L run taskName currentTask baseTaskKey args arguments
      scope input s _ _ hraw1 hdef1
      (dependencyFallback_miss_ok run currentTask arguments input _ s s2 out hmiss hrun)
    rw [hr1] at h1
    obtain ⟨values2, hm⟩ := resolveInputs_without_dependency L run taskName currentTask
      baseTaskKey args arguments scope mid hmid
      (SetValueAtPath values (SplitDot input.Name) v1)
      { CachedTaskOutputs :=
          SetValueAtPath s2.CachedTaskOutputs (SplitDot input.Name) (Value.str out),
        trace := s2.trace ++ [Event.cacheWrite (SplitDot input.Name)] }
    have hset := getValueAtPath_setValueAtPath (SplitDot input.Name) s2.CachedTaskOutputs
      (Value.str out) (SplitDot_ne_nil input.Name)
    have h2 := resolveInput_of_fallback L run taskName currentTask baseTaskKey args arguments
      scope input2
      { CachedTaskOutputs :=
          SetValueAtPath s2.CachedTaskOutputs (SplitDot input.Name) (Value.str out),
        trace := s2.trace ++ [Event.cacheWrite (SplitDot input.Name)] } _ _ hraw2 hdef2
      (dependencyFallback_hit run currentTask arguments input2 _ _ (Value.str out)
        (by rw [hpath]; exact hset) rfl)
    rw [hr2] at h2
    refine ⟨values2, ?_⟩
    rw [resolveInputs_cons_ok L run taskName currentTask baseTaskKey args arguments scope input
      _ values s _ v1 h1, hm (input2 :: rest),
      resolveInputs_cons_ok L run taskName currentTask baseTaskKey args arguments scope input2
      rest values2 _ _ v2 h2]
    simp [State.log, hpath]

theorem dependency_output_cached_and_reused_witness :
    ∃ values2 : Obj,
      resolveInputs (plainLib emptyViper) constRun ⟨["deploy"]⟩ deployTask "" [] [] []
          (regionInput :: ([replicasInput] ++ regionInput :: [])) [] initState =
        resolveInputs (plainLib emptyViper) constRun ⟨["deploy"]⟩ deployTask "" [] [] [] []
          (SetValueAtPath values2 (SplitDot regionInput.Name) (Value.str "sha256"))
          { CachedTaskOutputs :=
              SetValueAtPath
                ((initState.log (Event.cacheRead (SplitDot regionInput.Name))).log
                  (Event.runTask regionInput.TaskKey)).CachedTaskOutputs
                (SplitDot regionInput.Name) (Value.str "sha256"),
            trace :=
              ((initState.log (Event.cacheRead (SplitDot regionInput.Name))).log
                  (Event.runTask regionInput.TaskKey)).trace ++
                [Event.cacheWrite (SplitDot regionInput.Name),
                 Event.cacheRead (SplitDot regionInput.Name)] } :=
  (dependency_output_cached_and_reused (plainLib emptyViper) constRun ⟨["deploy"]⟩ deployTask
    "" [] [] [] regionInput initState).2.2 "sha256"
    ((initState.log (Event.cacheRead (SplitDot regionInput.Name))).log
      (Event.runTask regionInput.TaskKey))
    (Value.str "sha256") (Value.str "sha256") regionInput [replicasInput] [] []
    rfl rfl rfl rfl rfl rfl rfl rfl rfl
    (by
      intro m hm
      rw [List.mem_singleton] at hm
      subst hm
      exact ⟨Value.null, rfl, Or.inr ⟨rfl, Value.int 3, rfl, rfl⟩⟩)

/-! ## Lemmas: deep merge -/

theorem hasKey_setKey (k k0 : String) (v : Value) (m : Obj) :
    hasKey k (setKey k0 v m) = (decide (k0 = k) || hasKey k m) := by
  induction m with
  | nil => simp [setKey, hasKey]
  | cons kv rest ih =>
      obtain ⟨k', v'⟩ := kv
      by_cases h1 : k' = k0
      · subst h1
        by_cases h2 : k' = k <;> simp [setKey, hasKey, h2]
      · by_cases h2 : k' = k
        · subst h2
          simp [setKey, hasKey, h1]
        · simp [setKey, hasKey, h1, h2, ih]

theorem lookupKey_of_not_hasKey (k : String) (m : Obj) (h : hasKey k m = false) :
    lookupKey k m = Value.null := by
  induction m with
  | nil => rfl
  | cons kv rest ih =>
      obtain ⟨k', v'⟩ := kv
      by_cases h1 : k' = k
      · simp [hasKey, h1] at h
      · simp [hasKey, h1] at h
        simp [lookupKey, h1, ih h]

theorem mergeValue_of_not_obj (d s : Value) (hd : d.isObj = false) : mergeValue d s = d := by
  cases d <;> simp_all [mergeValue, Value.isObj]

theorem mergeValue_obj (d : Obj) (s : Value) :
    mergeValue (Value.obj d) s =
      match s with
      | .obj s0 => Value.obj (DeepMerge d s0)
      | _ => Value.obj d := by
  cases s <;> simp [mergeValue]

theorem lookupKey_deepMerge_invariant (Q : Value → Prop) (k : String)
    (hnull : ¬ Q Value.null) (hmerge : ∀ x y, Q x → Q (mergeValue x y)) :
    ∀ (s d : Obj), Q (lookupKey k d) → Q (lookupKey k (DeepMerge d s)) := by
  intro s
  induction s with
  | nil => intro d h; simpa [DeepMerge] using h
  | cons kv rest ih =>
      intro d h
      obtain ⟨k0, v0⟩ := kv
      rw [DeepMerge]
      apply ih
      by_cases hk : k0 = k
      · subst hk
        by_cases hh : hasKey k0 d = true
        · simp only [hh, if_true, lookupKey_setKey_same]
          exact hmerge _ _ h
        · have hf : hasKey k0 d = false := by simpa using hh
          rw [lookupKey_of_not_hasKey k0 d hf] at h
          exact absurd h hnull
      · cases hh : hasKey k0 d
        · simp only [Bool.false_eq_true, if_false]
          rw [lookupKey_setKey_other k k0 _ d hk]
          exact h
        · simp only [if_true]
          rw [lookupKey_setKey_other k k0 _ d hk]
          exact h

theorem getValueAtPath_deepMerge (path : List String) (v : Value) (hn : v.isNil = false)
    (ho : v.isObj = false) :
    ∀ d s : Obj, GetValueAtPath d path = (v, none) →
      GetValueAtPath (DeepMerge d s) path = (v, none) := by
  induction path with
  | nil =>
      intro d s h
      simp [GetValueAtPath] at h
      subst h
      simp at hn
  | cons k rest ih =>
      cases rest with
      | nil =>
          intro d s h
          simp only [GetValueAtPath, Prod.mk.injEq, and_true] at h ⊢
          refine lookupKey_deepMerge_invariant (fun x => x = v) k ?_ ?_ s d h
          · intro h0
            rw [← h0] at hn
            simp at hn
          · intro x y hx
            subst hx
            exact mergeValue_of_not_obj _ y ho
      | cons k2 rest2 =>
          intro d s h
          have key := lookupKey_deepMerge_invariant
            (fun x => ∃ m, x = Value.obj m ∧ GetValueAtPath m (k2 :: rest2) = (v, none)) k
            (by rintro ⟨m, hm, _⟩; cases hm)
            (by
              rintro x y ⟨m, rfl, hm⟩
              rw [mergeValue_obj]
              cases y with
              | obj s0 => exact ⟨_, rfl, ih m s0 hm⟩
              | _ => exact ⟨_, rfl, hm⟩)
            s d
            (by
              simp only [GetValueAtPath] at h
              cases hl : lookupKey k d with
              | obj sub => rw [hl] at h; exact ⟨sub, rfl, h⟩
              | _ =>
                  rw [hl] at h
                  simp only [Prod.mk.injEq, and_true] at h
                  rw [← h] at hn
                  simp at hn)
          obtain ⟨m, hm, hget⟩ := key
          simp only [GetValueAtPath, hm]
          exact hget

theorem lookupKey_deepMerge_of_not_src (k : String) :
    ∀ (s d : Obj), hasKey k s = false → lookupKey k (DeepMerge d s) = lookupKey k d := by
  intro s
  induction s with
  | nil => intro d _; simp [DeepMerge]
  | cons kv rest ih =>
      intro d h
      obtain ⟨k0, v0⟩ := kv
      have hk : k0 ≠ k := by
        intro hk
        simp [hasKey, hk] at h
      have hrest : hasKey k rest = false := by simpa [hasKey, hk] using h
      rw [DeepMerge, ih _ hrest]
      cases hh : hasKey k0 d
      · simp only [Bool.false_eq_true, if_false]
        exact lookupKey_setKey_other k k0 _ d hk
      · simp only [if_true]
        exact lookupKey_setKey_other k k0 _ d hk

theorem lookupKey_deepMerge_of_not_dest (k : String) :
    ∀ (s d : Obj), distinctKeys s → hasKey k d = false →
      lookupKey k (DeepMerge d s) = lookupKey k s := by
  intro s
  induction s with
  | nil =>
      intro d _ h
      simp [DeepMerge, lookupKey, lookupKey_of_not_hasKey k d h]
  | cons kv rest ih =>
      intro d hs h
      obtain ⟨k0, v0⟩ := kv
      obtain ⟨hk0, hrest⟩ := hs
      rw [DeepMerge]
      by_cases hk : k0 = k
      · subst hk
        simp only [h, lookupKey, if_true]
        rw [lookupKey_deepMerge_of_not_src k0 rest _ hk0]
        simp [lookupKey_setKey_same]
      · have hd : hasKey k
            (if hasKey k0 d = true then setKey k0 (mergeValue (lookupKey k0 d) v0) d
             else setKey k0 v0 d) = false := by
          split <;> simp [hasKey_setKey, hk, h]
        rw [ih _ hrest hd]
        simp [lookupKey, hk]

theorem distinctKeys_setKey (k : String) (v : Value) (m : Obj) (h : distinctKeys m) :
    distinctKeys (setKey k v m) := by
  induction m with
  | nil => simp [setKey, distinctKeys, hasKey]
  | cons kv rest ih =>
      obtain ⟨k', v'⟩ := kv
      obtain ⟨h1, h2⟩ := h
      by_cases hk : k' = k
      · subst hk
        simp only [setKey, if_true]
        exact ⟨h1, h2⟩
      · simp only [setKey, hk, if_false]
        refine ⟨?_, ih h2⟩
        rw [hasKey_setKey]
        simp [h1, Ne.symm hk]

theorem distinctKeys_setValueAtPath (m : Obj) (path : List String) (v : Value)
    (h : distinctKeys m) : distinctKeys (SetValueAtPath m path v) := by
  cases path with
  | nil => simpa [SetValueAtPath] using h
  | cons k rest =>
      cases rest with
      | nil => exact distinctKeys_setKey k v m h
      | cons k2 rest2 => exact distinctKeys_setKey k _ m h

theorem distinctKeys_deepMerge :
    ∀ (s d : Obj), distinctKeys d → distinctKeys (DeepMerge d s) := by
  intro s
  induction s with
  | nil => intro d h; simpa [DeepMerge] using h
  | cons kv rest ih =>
      intro d h
      obtain ⟨k0, v0⟩ := kv
      rw [DeepMerge]
      apply ih
      split <;> exact distinctKeys_setKey _ _ _ h

theorem distinctKeys_resolveInputs (L : Lib) (run : RunTaskFn) (taskName : TaskName)
    (currentTask : Task) (baseTaskKey : String) (args : List String) (arguments scope : Obj) :
    ∀ (inputs : List Input) (values : Obj) (s s1 : State) (r : Obj),
      distinctKeys values →
      resolveInputs L run taskName currentTask baseTaskKey args arguments scope inputs values s =
        Res.ret ((r, none), s1) →
      distinctKeys r := by
  intro inputs
  induction inputs with
  | nil =>
      intro values s s1 r hv h
      simp [resolveInputs] at h
      rw [← h.1]
      exact hv
  | cons input rest ih =>
      intro values s s1 r hv h
      rcases hr : resolveInput L run taskName currentTask baseTaskKey args arguments scope
        input s with ⟨⟨v, _ | e⟩, s2⟩ | _ | _
      · simp only [resolveInputs, hr] at h
        exact ih _ _ _ _ (distinctKeys_setValueAtPath _ _ _ hv) h
      · simp [resolveInputs, hr] at h
      · simp [resolveInputs, hr] at h
      · simp [resolveInputs, hr] at h

theorem distinctKeys_direct (L : Lib) (p : Application) (run : RunTaskFn)
    (taskName : TaskName) (args : List String) (arguments scope : Obj) (caller : List Task)
    (s s1 : State) (r : Obj)
    (h : DirectInputValuesForTaskKey L p run taskName args arguments scope caller s =
      Res.ret ((r, none), s1)) : distinctKeys r := by
  unfold DirectInputValuesForTaskKey at h
  cases hf : p.FindTask taskName with
  | error e =>
      rw [hf] at h
      simp [Trace] at h
  | ok t =>
      rw [hf] at h
      exact distinctKeys_resolveInputs L run taskName t _ args arguments scope _ [] _ _ _
        (by simp [distinctKeys]) h

theorem distinctKeys_inheritedAux (L : Lib) (p : Application) (run : RunTaskFn) :
    ∀ (fuel : Nat) (taskName : TaskName) (args : List String) (arguments scope : Obj)
      (caller : List Task) (s s1 : State) (r : Obj),
      InheritedAux L p run fuel taskName args arguments scope caller s =
        Res.ret ((r, none), s1) →
      distinctKeys r := by
  intro fuel
  induction fuel with
  | zero =>
      intro taskName args arguments scope caller s s1 r h
      simp [InheritedAux] at h
  | succ fuel ih =>
      intro taskName args arguments scope caller s s1 r h
      rcases hd : DirectInputValuesForTaskKey L p run taskName args arguments scope caller s
        with ⟨⟨direct, _ | e⟩, s2⟩ | _ | _
      · have hdk := distinctKeys_direct L p run taskName args arguments scope caller s s2
          direct hd
        rcases hp : taskName.Parent with ⟨parentKey, _ | e⟩
        · rcases hi : InheritedAux L p run fuel parentKey [] arguments [] caller s2
            with ⟨⟨inh, _ | e⟩, s3⟩ | _ | _
          · simp only [InheritedAux, hd, hp, hi, Res.ret.injEq, Prod.mk.injEq, and_true] at h
            rw [← h.1]
            exact distinctKeys_deepMerge _ _ hdk
          · simp [InheritedAux, hd, hp, hi, Annotatef] at h
          · simp [InheritedAux, hd, hp, hi] at h
          · simp [InheritedAux, hd, hp, hi] at h
        · simp only [InheritedAux, hd, hp, Res.ret.injEq, Prod.mk.injEq, and_true] at h
          rw [← h.1]
          exact hdk
      · simp [InheritedAux, hd, Annotatef] at h
      · simp [InheritedAux, hd] at h
      · simp [InheritedAux, hd] at h

theorem parent_components_length (taskName parentKey : TaskName)
    (h : taskName.Parent = (parentKey, none)) :
    taskName.Components.length = parentKey.Components.length + 1 := by
  unfold TaskName.Parent at h
  split at h
  · simp at h
  · rename_i hlen
    simp only [Prod.mk.injEq, and_true] at h
    rw [← h]
    simp only [List.length_dropLast]
    omega

/-! ## Lemmas: deep merge at a dotted path -/

theorem mergeValue_null (x : Value) : mergeValue x Value.null = x := by
  cases x <;> simp [mergeValue]

theorem hasKey_of_lookupKey_not_nil (k : String) (m : Obj)
    (h : (lookupKey k m).isNil = false) : hasKey k m = true := by
  cases hh : hasKey k m
  · rw [lookupKey_of_not_hasKey k m hh] at h
    simp at h
  · rfl

theorem getValueAtPath_snd (path : List String) :
    ∀ m : Obj, GetValueAtPath m path = ((GetValueAtPath m path).1, none) := by
  induction path with
  | nil => intro m; rfl
  | cons k rest ih =>
      cases rest with
      | nil => intro m; rfl
      | cons k2 rest2 =>
          intro m
          simp only [GetValueAtPath]
          cases lookupKey k m <;> first | rfl | exact ih _

theorem lookupKey_deepMerge_of_dest (k : String) :
    ∀ (s d : Obj), distinctKeys s → hasKey k d = true →
      lookupKey k (DeepMerge d s) = mergeValue (lookupKey k d) (lookupKey k s) := by
  intro s
  induction s with
  | nil =>
      intro d _ _
      simp [DeepMerge, lookupKey, mergeValue_null]
  | cons kv rest ih =>
      intro d hs hd
      obtain ⟨k0, v0⟩ := kv
      obtain ⟨h0, hrest⟩ := hs
      rw [DeepMerge]
      by_cases hk : k0 = k
      · subst hk
        rw [lookupKey_deepMerge_of_not_src k0 rest _ h0]
        simp [hd, lookupKey, lookupKey_setKey_same]
      · have hd2 : hasKey k
            (if hasKey k0 d = true then setKey k0 (mergeValue (lookupKey k0 d) v0) d
             else setKey k0 v0 d) = true := by
          split <;> simp [hasKey_setKey, hd]
        rw [ih _ hrest hd2]
        have hl : lookupKey k
            (if hasKey k0 d = true then setKey k0 (mergeValue (lookupKey k0 d) v0) d
             else setKey k0 v0 d) = lookupKey k d := by
          split <;> exact lookupKey_setKey_other k k0 _ d hk
        rw [hl]
        simp [lookupKey, hk]

theorem freeAt_getValueAtPath (path : List String) :
    ∀ d : Obj, freeAt d path → GetValueAtPath d path = (Value.null, none) := by
  induction path with
  | nil => intro d _; rfl
  | cons k rest ih =>
      cases rest with
      | nil =>
          intro d h
          simp only [freeAt] at h
          simp [GetValueAtPath, lookupKey_of_not_hasKey k d h]
      | cons k2 rest2 =>
          intro d h
          simp only [freeAt] at h
          rcases h with h | ⟨sub, hsub, hfree⟩
          · simp [GetValueAtPath, lookupKey_of_not_hasKey k d h]
          · simp only [GetValueAtPath, hsub]
            exact ih sub hfree

theorem getValueAtPath_deepMerge_merge (path : List String) :
    ∀ (d s : Obj) (x : Value), distinctAlong s path →
      GetValueAtPath d path = (x, none) → x.isNil = false →
      GetValueAtPath (DeepMerge d s) path =
        (mergeValue x (GetValueAtPath s path).1, none) := by
  induction path with
  | nil =>
      intro d s x _ h hx
      simp only [GetValueAtPath, Prod.mk.injEq, and_true] at h
      rw [← h] at hx
      simp at hx
  | cons k rest ih =>
      cases rest with
      | nil =>
          intro d s x hs h hx
          simp only [GetValueAtPath, Prod.mk.injEq, and_true] at h
          subst h
          simp only [GetValueAtPath]
          rw [lookupKey_deepMerge_of_dest k s d hs.1 (hasKey_of_lookupKey_not_nil k d hx)]
      | cons k2 rest2 =>
          intro d s x hs h hx
          obtain ⟨hs1, hs2⟩ := hs
          simp only [GetValueAtPath] at h
          cases hl : lookupKey k d with
          | obj dsub =>
              rw [hl] at h
              simp only at h
              have hk : hasKey k d = true :=
                hasKey_of_lookupKey_not_nil k d (by rw [hl]; rfl)
              have hm := lookupKey_deepMerge_of_dest k s d hs1 hk
              rw [hl, mergeValue_obj] at hm
              cases hls : lookupKey k s with
              | obj ssub =>
                  rw [hls] at hm
                  simp only [GetValueAtPath, hm, hls]
                  exact ih dsub ssub x (hs2 ssub hls) h hx
              | _ =>
                  rw [hls] at hm
                  simp only [GetValueAtPath, hm, hls, mergeValue_null]
                  exact h
          | _ =>
              rw [hl] at h
              simp only [Prod.mk.injEq, and_true] at h
              rw [← h] at hx
              simp at hx

theorem getValueAtPath_deepMerge_free (path : List String) :
    ∀ (d s : Obj), distinctAlong s path → freeAt d path →
      GetValueAtPath (DeepMerge d s) path = GetValueAtPath s path := by
  induction path with
  | nil => intro d s _ _; rfl
  | cons k rest ih =>
      cases rest with
      | nil =>
          intro d s hs hf
          simp only [freeAt] at hf
          simp only [GetValueAtPath]
          rw [lookupKey_deepMerge_of_not_dest k s d hs.1 hf]
      | cons k2 rest2 =>
          intro d s hs hf
          obtain ⟨hs1, hs2⟩ := hs
          simp only [freeAt] at hf
          rcases hf with hf | ⟨dsub, hl, hfree⟩
          · simp only [GetValueAtPath]
            rw [lookupKey_deepMerge_of_not_dest k s d hs1 hf]
          · have hk : hasKey k d = true :=
              hasKey_of_lookupKey_not_nil k d (by rw [hl]; rfl)
            have hm := lookupKey_deepMerge_of_dest k s d hs1 hk
            rw [hl, mergeValue_obj] at hm
            cases hls : lookupKey k s with
            | obj ssub =>
                rw [hls] at hm
                simp only [GetValueAtPath, hm, hls]
                exact ih dsub ssub (hs2 ssub hls) hfree
            | _ =>
                rw [hls] at hm
                simp only [GetValueAtPath, hm, hls]
                exact freeAt_getValueAtPath (k2 :: rest2) dsub hfree

/-! ## Theorems: inherited inputs -/

/-- C4 (the claim at a failing input): the task `svc.api` resolves the input `cfg`
of type `object` to the mapping `p: 1`, and its parent `svc` resolves `cfg` to
`q: 2`.  The result of `InheritedInputValuesForTaskKey(svc.api)` holds under `cfg`
the deep merge `p: 1, q: 2`, not the value resolved directly for `svc.api`. -/
theorem object_input_merged_with_ancestor :
    DirectInputValuesForTaskKey (plainLib emptyViper) svcApp noRun ⟨["svc", "api"]⟩ [] [] []
        [] initState =
      Res.ret (([("cfg", Value.obj [("p", Value.int 1)]),
                 ("db", Value.obj [("host", Value.str "localhost")])], none),
        { CachedTaskOutputs := [], trace := [Event.findTask ⟨["svc", "api"]⟩] }) ∧
    InheritedInputValuesForTaskKey (plainLib emptyViper) svcApp noRun ⟨["svc", "api"]⟩ [] []
        [] [] initState =
      Res.ret (([("cfg", Value.obj [("p", Value.int 1), ("q", Value.int 2)]),
                 ("db", Value.obj [("host", Value.str "localhost"),
                                   ("port", Value.str "5432")])], none),
        { CachedTaskOutputs := [],
          trace := [Event.findTask ⟨["svc", "api"]⟩, Event.findTask ⟨["svc"]⟩] }) ∧
    Value.obj [("p", Value.int 1), ("q", Value.int 2)] ≠ Value.obj [("p", Value.int 1)] := by
  refine ⟨rfl, rfl, ?_⟩
  intro h
  cases h

/-- C4 (amended): for a task name whose parent exists and resolves, the result of
`InheritedInputValuesForTaskKey` is the direct values of the task deep-merged over
the inherited values of the parent.  At every dotted path where the task itself
resolved a value that is not a nested mapping, the result holds that value: the
direct value wins over the ancestor's.  At every dotted path where the task itself
resolved a value, the result holds that value merged over the ancestor's value at
the path: two mappings are deep-merged, the entries of the task winning, and
otherwise the direct value stands.  At every dotted path on the way to which the
task itself resolved nothing, and for every key that it did not resolve, the
result holds the ancestor's value.  The mappings of the ancestor met on the way to
a path have distinct keys, as every Go map has. -/
theorem children_first_deep_merge (L : Lib) (p : Application) (run : RunTaskFn)
    (taskName parentKey : TaskName) (args : List String) (arguments scope : Obj)
    (caller : List Task) (s s1 s2 : State) (direct inherited : Obj)
    (hdirect : DirectInputValuesForTaskKey L p run taskName args arguments scope caller s =
      Res.ret ((direct, none), s1))
    (hparent : taskName.Parent = (parentKey, none))
    (hinh : InheritedInputValuesForTaskKey L p run parentKey [] arguments [] caller s1 =
      Res.ret ((inherited, none), s2)) :
    InheritedInputValuesForTaskKey L p run taskName args arguments scope caller s =
      Res.ret ((DeepMerge direct inherited, none), s2) ∧
    (∀ (path : List String) (v : Value),
      GetValueAtPath direct path = (v, none) → v.isNil = false → v.isObj = false →
      GetValueAtPath (DeepMerge direct inherited) path = (v, none)) ∧
    (∀ (path : List String) (x : Value),
      distinctAlong inherited path →
      GetValueAtPath direct path = (x, none) → x.isNil = false →
      GetValueAtPath (DeepMerge direct inherited) path =
        (mergeValue x (GetValueAtPath inherited path).1, none)) ∧
    (∀ path : List String,
      distinctAlong inherited path → freeAt direct path →
      GetValueAtPath (DeepMerge direct inherited) path = GetValueAtPath inherited path) ∧
    (∀ k : String, hasKey k direct = false →
      lookupKey k (DeepMerge direct inherited) = lookupKey k inherited) := by
  have hlen := parent_components_length taskName parentKey hparent
  have hinh2 : InheritedAux L p run taskName.Components.length parentKey [] arguments []
      caller s1 = Res.ret ((inherited, none), s2) := by
    rw [hlen]
    exact hinh
  refine ⟨?_, ?_, ?_, ?_, ?_⟩
  · simp only [InheritedInputValuesForTaskKey, InheritedAux, hdirect, hparent, hinh2]
  · intro path v hget hn ho
    exact getValueAtPath_deepMerge path v hn ho direct inherited hget
  · intro path x hd hget hx
    exact getValueAtPath_deepMerge_merge path direct inherited x hd hget hx
  · intro path hd hf
    exact getValueAtPath_deepMerge_free path direct inherited hd hf
  · intro k hk
    exact lookupKey_deepMerge_of_not_dest k inherited direct
      (distinctKeys_inheritedAux L p run _ parentKey [] arguments [] caller s1 s2 inherited
        hinh) hk

theorem children_first_deep_merge_witness :
    GetValueAtPath
        (DeepMerge
          [("cfg", Value.obj [("p", Value.int 1)]),
           ("db", Value.obj [("host", Value.str "localhost")])]
          [("cfg", Value.obj [("q", Value.int 2)]),
           ("db", Value.obj [("port", Value.str "5432")])])
        ["db", "port"] =
      GetValueAtPath
        [("cfg", Value.obj [("q", Value.int 2)]), ("db", Value.obj [("port", Value.str "5432")])]
        ["db", "port"] :=
  (children_first_deep_merge (plainLib emptyViper) svcApp noRun ⟨["svc", "api"]⟩ ⟨["svc"]⟩ [] []
    [] [] initState
    { CachedTaskOutputs := [], trace := [Event.findTask ⟨["svc", "api"]⟩] }
    { CachedTaskOutputs := [],
      trace := [Event.findTask ⟨["svc", "api"]⟩, Event.findTask ⟨["svc"]⟩] }
    [("cfg", Value.obj [("p", Value.int 1)]), ("db", Value.obj [("host", Value.str "localhost")])]
    [("cfg", Value.obj [("q", Value.int 2)]), ("db", Value.obj [("port", Value.str "5432")])]
    rfl rfl rfl).2.2.2.1 ["db", "port"]
    (by
      refine ⟨⟨rfl, rfl, trivial⟩, ?_⟩
      intro sub hsub
      have hs : sub = [("port", Value.str "5432")] := by
        have h2 : lookupKey "db"
            [("cfg", Value.obj [("q", Value.int 2)]),
             ("db", Value.obj [("port", Value.str "5432")])] =
            Value.obj [("port", Value.str "5432")] := rfl
        rw [h2] at hsub
        injection hsub with hsub
        exact hsub.symm
      subst hs
      exact ⟨⟨rfl, trivial⟩, fun _ _ => trivial⟩)
    (Or.inr ⟨[("host", Value.str "localhost")], rfl, rfl⟩)

/-! ## Lemmas: failure of the dependency task -/

theorem dependencyFallback_miss_error (run : RunTaskFn) (currentTask : Task) (arguments : Obj)
    (input : Input) (path : List String) (s s2 : State) (out : String) (e : GoError)
    (hget : (GetValueAtPath s.CachedTaskOutputs path).1.isNil = true)
    (hrun : run input.TaskKey [] (ArgumentsGetSubOrEmpty arguments input.Name) [] [currentTask]
      ((s.log (Event.cacheRead path)).log (Event.runTask input.TaskKey)) =
        Res.ret ((out, some e), s2)) :
    dependencyFallback run currentTask arguments input path s =
      Res.ret ((Value.null,
        some (GoError.annotated e
          ("Missing value for input " ++ input.ShortName ++
            ". Please provide a command line option or a positional argument or a task for it"))),
        s2) := by
  rcases hg : GetValueAtPath s.CachedTaskOutputs path with ⟨o, e0⟩
  rw [hg] at hget
  simp only at hget
  simp [dependencyFallback, hg, hget, hrun, Annotatef]

theorem resolveInput_of_fallback_error (L : Lib) (run : RunTaskFn) (taskName : TaskName)
    (currentTask : Task) (baseTaskKey : String) (args : List String) (arguments scope : Obj)
    (input : Input) (s s2 : State) (v : Value) (err : GoError)
    (hraw : rawFromSources L taskName baseTaskKey input args arguments = Res.ret Value.null)
    (hdef : staticDefault input = (Value.null, none))
    (hfb : dependencyFallback run currentTask arguments input (SplitDot input.Name) s =
      Res.ret ((v, some err), s2)) :
    resolveInput L run taskName currentTask baseTaskKey args arguments scope input s =
      Res.ret ((Value.null, some err), s2) := by
  simp [resolveInput, hraw, hdef, hfb]

theorem resolveInputs_append (L : Lib) (run : RunTaskFn) (taskName : TaskName)
    (currentTask : Task) (baseTaskKey : String) (args : List String) (arguments scope : Obj) :
    ∀ (pre rest : List Input) (values0 values : Obj) (s0 s : State),
      resolveInputs L run taskName currentTask baseTaskKey args arguments scope pre values0 s0 =
        Res.ret ((values, none), s) →
      resolveInputs L run taskName currentTask baseTaskKey args arguments scope (pre ++ rest)
          values0 s0 =
        resolveInputs L run taskName currentTask baseTaskKey args arguments scope rest values
          s := by
  intro pre
  induction pre with
  | nil =>
      intro rest values0 values s0 s h
      simp only [resolveInputs, Res.ret.injEq, Prod.mk.injEq, and_true] at h
      obtain ⟨h1, h2⟩ := h
      subst h1
      subst h2
      rfl
  | cons input pre ih =>
      intro rest values0 values s0 s h
      rcases hr : resolveInput L run taskName currentTask baseTaskKey args arguments scope
        input s0 with ⟨⟨v, _ | e⟩, s1⟩ | _ | _
      · simp only [resolveInputs, hr, List.cons_append] at h ⊢
        exact ih rest _ values s1 s h
      · simp [resolveInputs, hr] at h
      · simp [resolveInputs, hr] at h
      · simp [resolveInputs, hr] at h

/-! ## Theorems: failure of the dependency task -/

/-- C11: in `DirectInputValuesForTaskKey`, for an input that reaches the dependency
fallback with no cached entry at its path, when the dependency `RunTask` returns an
error the resolution returns no values map and a non-nil error, the error of the
dependency annotated with a message that carries the input's short name, also when
earlier inputs of the task had resolved; the run state is the one in which the
dependency `RunTask` returned, so the resolver writes no entry into
`CachedTaskOutputs`. -/
theorem failed_dependency_fails_resolution (L : Lib) (run : RunTaskFn) (taskName : TaskName)
    (currentTask : Task) (baseTaskKey : String) (args : List String) (arguments scope : Obj)
    (input : Input) (s s2 : State) (out : String) (e : GoError)
    (hraw : rawFromSources L taskName baseTaskKey input args arguments = Res.ret Value.null)
    (hdef : staticDefault input = (Value.null, none))
    (hmiss : (GetValueAtPath s.CachedTaskOutputs (SplitDot input.Name)).1.isNil = true)
    (hrun : run input.TaskKey [] (ArgumentsGetSubOrEmpty arguments input.Name) [] [currentTask]
      ((s.log (Event.cacheRead (SplitDot input.Name))).log (Event.runTask input.TaskKey)) =
        Res.ret ((out, some e), s2)) :
    ∃ err : GoError,
      err = GoError.annotated e
        ("Missing value for input " ++ input.ShortName ++
          ". Please provide a command line option or a positional argument or a task for it") ∧
      resolveInput L run taskName currentTask baseTaskKey args arguments scope input s =
        Res.ret ((Value.null, some err), s2) ∧
      (∀ (pre rest : List Input) (values0 values : Obj) (s0 : State),
        resolveInputs L run taskName currentTask baseTaskKey args arguments scope pre values0
            s0 = Res.ret ((values, none), s) →
        resolveInputs L run taskName currentTask baseTaskKey args arguments scope
            (pre ++ input :: rest) values0 s0 = Res.ret (([], some err), s2)) := by
  have hres := resolveInput_of_fallback_error L run taskName currentTask baseTaskKey args
    arguments scope input s s2 _ _ hraw hdef
    (dependencyFallback_miss_error run currentTask arguments input _ s s2 out e hmiss hrun)
  refine ⟨_, rfl, hres, ?_⟩
  intro pre rest values0 values s0 hpre
  rw [resolveInputs_append L run taskName currentTask baseTaskKey args arguments scope pre
    (input :: rest) values0 values s0 s hpre]
  exact resolveInputs_cons_error L run taskName currentTask baseTaskKey args arguments scope
    input rest values s s2 Value.null _ hres

theorem failed_dependency_fails_resolution_witness :
    ∃ err : GoError,
      err = GoError.annotated (GoError.new "task not found")
        ("Missing value for input " ++ regionInput.ShortName ++
          ". Please provide a command line option or a positional argument or a task for it") ∧
      resolveInput (plainLib emptyViper) failRun ⟨["deploy"]⟩ deployTask "" [] [] []
          regionInput initState =
        Res.ret ((Value.null, some err),
          { CachedTaskOutputs := [],
            trace := [Event.cacheRead ["region"], Event.runTask ⟨["deploy", "region"]⟩] }) ∧
      (∀ (pre rest : List Input) (values0 values : Obj) (s0 : State),
        resolveInputs (plainLib emptyViper) failRun ⟨["deploy"]⟩ deployTask "" [] [] [] pre
            values0 s0 = Res.ret ((values, none), initState) →
        resolveInputs (plainLib emptyViper) failRun ⟨["deploy"]⟩ deployTask "" [] [] []
            (pre ++ regionInput :: rest) values0 s0 =
          Res.ret (([], some err),
            { CachedTaskOutputs := [],
              trace := [Event.cacheRead ["region"], Event.runTask ⟨["deploy", "region"]⟩] })) :=
  failed_dependency_fails_resolution (plainLib emptyViper) failRun ⟨["deploy"]⟩ deployTask ""
    [] [] [] regionInput initState
    { CachedTaskOutputs := [],
      trace := [Event.cacheRead ["region"], Event.runTask ⟨["deploy", "region"]⟩] }
    "" (GoError.new "task not found") rfl rfl rfl rfl

/-! ## Lemmas: the last index of a dot -/

theorem lastIndexAux_dot_absent (cs : List Char) (off : Nat) (acc : Int)
    (h : '.' ∉ cs) : lastIndexAux ['.'] cs off acc = acc := by
  induction cs generalizing off acc with
  | nil => simp [lastIndexAux]
  | cons c cs ih =>
      have hc : c ≠ '.' := fun hc => h (by simp [hc])
      have hcs : '.' ∉ cs := fun hm => h (by simp [hm])
      rw [lastIndexAux, ih _ _ hcs]
      simp [List.isPrefixOf, hc, Ne.symm hc]

theorem lastIndexAux_dot_last (pre post : List Char) (off : Nat) (acc : Int)
    (h : '.' ∉ post) :
    lastIndexAux ['.'] (pre ++ '.' :: post) off acc = ((off + utf8Len pre : Nat) : Int) := by
  induction pre generalizing off acc with
  | nil =>
      rw [List.nil_append, lastIndexAux, lastIndexAux_dot_absent post _ _ h]
      simp [List.isPrefixOf, utf8Len]
  | cons c pre ih =>
      rw [List.cons_append, lastIndexAux, ih]
      simp only [utf8Len, List.map_cons, List.sum_cons]
      congr 1
      omega

theorem exists_last_dot (cs : List Char) (h : '.' ∈ cs) :
    ∃ pre post, cs = pre ++ '.' :: post ∧ '.' ∉ post := by
  induction cs with
  | nil => simp at h
  | cons c cs ih =>
      by_cases hcs : '.' ∈ cs
      · obtain ⟨pre, post, hpre, hpost⟩ := ih hcs
        exact ⟨c :: pre, post, by simp [hpre], hpost⟩
      · have hc : c = '.' := by
          rcases List.mem_cons.mp h with h1 | h1
          · exact h1.symm
          · exact absurd h1 hcs
        exact ⟨[], cs, by simp [hc], hcs⟩

theorem LastIndex_dot_of_mem (k : String) (h : '.' ∈ k.data) : LastIndex k "." ≠ -1 := by
  obtain ⟨pre, post, hk, hpost⟩ := exists_last_dot k.data h
  have : LastIndex k "." = ((0 + utf8Len pre : Nat) : Int) := by
    unfold LastIndex
    rw [hk]
    exact lastIndexAux_dot_last pre post 0 (-1) hpost
  rw [this]
  omega

theorem LastIndex_dot_of_not_mem (k : String) (h : '.' ∉ k.data) : LastIndex k "." = -1 := by
  unfold LastIndex
  exact lastIndexAux_dot_absent k.data 0 (-1) h

/-! ## Lemmas: the configuration provider -/

theorem getTmpl_of_no_flag (viper : Viper) (k tpe : String)
    (hflag : (viper.Get ("flags." ++ k)).isNil = true) :
    GetTmplOrTypedValueForConfigKey viper k tpe = configLookup viper k tpe := by
  simp [GetTmplOrTypedValueForConfigKey, hflag]

theorem configLookup_of_split_panic (viper : Viper) (k tpe : String)
    (hdot : LastIndex k "." ≠ -1) (hsplit : splitKey k = Res.panic) :
    configLookup viper k tpe = Res.panic := by
  unfold configLookup
  simp only [hdot, ne_eq, not_false_eq_true, if_true]
  by_cases h : LastIndex k "." + 1 > (k.data.length : Int)
  · simp only [h, if_true]
  · have hs : splitKey k = Res.ret (String.mk (k.data.take (LastIndex k ".").toNat),
        String.mk (k.data.drop ((LastIndex k ".").toNat + 1))) := if_neg h
    rw [hs] at hsplit
    cases hsplit

theorem configLookup_of_split_nothing (viper : Viper) (k tpe k1 k2 : String)
    (hdot : LastIndex k "." ≠ -1) (hsplit : splitKey k = Res.ret (k1, k2))
    (hnothing : (viper.Get k1).isNil = true ∨ viper.Sub k1 = none ∨
      ∃ values, viper.Sub k1 = some values ∧ (values k2).isNil = true) :
    configLookup viper k tpe = Res.ret Value.null := by
  unfold configLookup
  simp only [hdot, ne_eq, not_false_eq_true, if_true]
  by_cases h : LastIndex k "." + 1 > (k.data.length : Int)
  · have hs : splitKey k = Res.panic := if_pos h
    rw [hs] at hsplit
    cases hsplit
  · have hs : splitKey k = Res.ret (String.mk (k.data.take (LastIndex k ".").toNat),
        String.mk (k.data.drop ((LastIndex k ".").toNat + 1))) := if_neg h
    rw [hs] at hsplit
    simp only [Res.ret.injEq, Prod.mk.injEq] at hsplit
    obtain ⟨h1, h2⟩ := hsplit
    simp only [h, if_false, h1, h2]
    rcases hnothing with hn | hn | ⟨values, hs, hn⟩
    · simp [hn]
    · simp [hn]
    · simp [hs, hn]

theorem configLookup_flat (viper : Viper) (k tpe : String) (hdot : LastIndex k "." = -1) :
    configLookup viper k tpe =
      Res.ret (match viper.Get k with
        | .str s => Value.str s
        | raw => (ensureType raw tpe).1) := by
  unfold configLookup
  simp only [hdot, ne_eq, not_true_eq_false, if_false]
  cases hraw : viper.Get k <;> simp [Value.isNil, ensureType] <;> split_ifs <;> rfl

/-! ## Theorems: the configuration provider -/

/-- C12 (the claim at a failing input): the flag override `flags.region` holds the
empty string and the flat configuration holds `fallback` at `region`; the provider
returns `fallback`, not the string held by the flag. -/
theorem empty_flag_not_returned :
    emptyFlagViper.Get "flags.region" = Value.str "" ∧
    GetTmplOrTypedValueForConfigKey emptyFlagViper "region" "string" =
      Res.ret (Value.str "fallback") ∧
    GetTmplOrTypedValueForConfigKey emptyFlagViper "region" "string" ≠
      Res.ret (Value.str "") := by
  have h : GetTmplOrTypedValueForConfigKey emptyFlagViper "region" "string" =
      Res.ret (Value.str "fallback") := rfl
  refine ⟨rfl, h, ?_⟩
  rw [h]
  intro hc
  injection hc with hc
  injection hc with hc
  exact absurd hc (by decide)

/-- C12 (amended): for every key `k`, every expected type and every non-empty
string `s` held at `flags.<k>`, `GetTmplOrTypedValueForConfigKey(k, type)` returns
`s`, whatever the configuration sections and the flat configuration hold. -/
theorem nonempty_flag_returned_verbatim (viper : Viper) (k tpe s : String)
    (hflag : viper.Get ("flags." ++ k) = Value.str s) (hs : s ≠ "") :
    GetTmplOrTypedValueForConfigKey viper k tpe = Res.ret (Value.str s) := by
  simp [GetTmplOrTypedValueForConfigKey, hflag, Value.isNil, Value.isEmptyString, hs]

theorem nonempty_flag_returned_verbatim_witness :
    GetTmplOrTypedValueForConfigKey
      { Get := fun k => if k = "flags.deploy.region" then Value.str "us-east-1" else Value.null,
        Sub := fun _ => none } "deploy.region" "integer" = Res.ret (Value.str "us-east-1") :=
  nonempty_flag_returned_verbatim _ "deploy.region" "integer" "us-east-1" rfl (by decide)

/-- C13 (the claim at a failing input): the flat configuration holds the string
`eu-west-1` at the dotted key `deploy.region`, there is no flag override and no
section `deploy`; the provider returns the nil value, not the entry of the flat
configuration. -/
theorem dotted_key_flat_entry_not_returned :
    flatViper.Get "flags.deploy.region" = Value.null ∧
    splitKey "deploy.region" = Res.ret ("deploy", "region") ∧
    flatViper.Get "deploy" = Value.null ∧
    flatViper.Get "deploy.region" = Value.str "eu-west-1" ∧
    GetTmplOrTypedValueForConfigKey flatViper "deploy.region" "string" =
      Res.ret Value.null := by
  refine ⟨rfl, rfl, rfl, rfl, rfl⟩

/-- C13 (amended): for every key `k` that contains a dot, has no flag override,
whose split at the last dot stays within the key, and for which the sectioned
lookup yields nothing, `GetTmplOrTypedValueForConfigKey(k, type)` returns absent,
whatever the flat configuration holds at `k`.  The flat configuration is fetched
directly for a key without a dot only: the entry is returned when it is a string,
or a native value that `ensureType` accepts for the expected type, and absent is
returned otherwise. -/
theorem dotted_key_has_no_flat_fallback (viper : Viper) (k tpe : String) :
    (∀ k1 k2 : String,
      '.' ∈ k.data →
      (viper.Get ("flags." ++ k)).isNil = true →
      splitKey k = Res.ret (k1, k2) →
      ((viper.Get k1).isNil = true ∨ viper.Sub k1 = none ∨
        ∃ values, viper.Sub k1 = some values ∧ (values k2).isNil = true) →
      GetTmplOrTypedValueForConfigKey viper k tpe = Res.ret Value.null) ∧
    ('.' ∉ k.data →
      (viper.Get ("flags." ++ k)).isNil = true →
      GetTmplOrTypedValueForConfigKey viper k tpe =
        Res.ret (match viper.Get k with
          | .str s => Value.str s
          | raw => (ensureType raw tpe).1)) := by
  refine ⟨?_, ?_⟩
  · intro k1 k2 hdot hflag hsplit hnothing
    rw [getTmpl_of_no_flag viper k tpe hflag]
    exact configLookup_of_split_nothing viper k tpe k1 k2 (LastIndex_dot_of_mem k hdot) hsplit
      hnothing
  · intro hdot hflag
    rw [getTmpl_of_no_flag viper k tpe hflag]
    exact configLookup_flat viper k tpe (LastIndex_dot_of_not_mem k hdot)

theorem dotted_key_has_no_flat_fallback_witness :
    GetTmplOrTypedValueForConfigKey flatViper "deploy.region" "string" = Res.ret Value.null :=
  (dotted_key_has_no_flat_fallback flatViper "deploy.region" "string").1 "deploy" "region"
    (by decide) rfl rfl (Or.inl rfl)

/-- C15 (the code at a failing input): `ensureType` compares the requested type
with `bool`, while the type name of a boolean input is `boolean`; so
`ensureType(raw, "boolean")` accepts no value, a native boolean included, and a
native boolean held in the flat configuration at `debug` is not returned by the
provider for the expected type `boolean`.  The types `string` and `integer` behave
as described: a native string, and a native `int` or `int64`, are accepted. -/
theorem ensureType_rejects_boolean :
    (∀ raw : Value, ensureType raw "boolean" = (Value.null, false)) ∧
    ensureType (Value.bool true) "boolean" = (Value.null, false) ∧
    flatViper.Get "debug" = Value.bool true ∧
    GetTmplOrTypedValueForConfigKey flatViper "debug" "boolean" = Res.ret Value.null ∧
    ensureType (Value.bool true) "bool" = (Value.bool true, true) ∧
    (∀ raw : Value, ensureType raw "string" = (raw, true) ↔ ∃ s, raw = Value.str s) ∧
    (∀ raw : Value, ensureType raw "integer" = (raw, true) ↔
      (∃ n, raw = Value.int n) ∨ (∃ n, raw = Value.int64 n)) := by
  refine ⟨?_, rfl, rfl, rfl, rfl, ?_, ?_⟩
  · intro raw
    have h1 : ("boolean" : String) ≠ "string" := by decide
    have h2 : ("boolean" : String) ≠ "integer" := by decide
    have h3 : ("boolean" : String) ≠ "bool" := by decide
    simp [ensureType, h1, h2, h3]
  · intro raw
    cases raw <;> simp [ensureType]
  · intro raw
    have h1 : ("integer" : String) ≠ "string" := by decide
    cases raw <;> simp [ensureType, h1]

/-- C16 (the code at a failing input): for the key `é.a` the byte offset of the
last dot is 2, and it is used as an index into the runes of the key; the section
name computed is `é.` and the leaf is empty, so `k1 ++ "." ++ k2` is not the key,
and the entry `a` of the section `é` is not found. -/
theorem splitKey_non_ascii_wrong :
    LastIndex "é.a" "." = 2 ∧
    splitKey "é.a" = Res.ret ("é.", "") ∧
    ("é." ++ "." ++ "" : String) ≠ "é.a" ∧
    GetTmplOrTypedValueForConfigKey unicodeViper "é.a" "string" = Res.ret Value.null ∧
    splitKey "a.b.c" = Res.ret ("a.b", "c") := by
  refine ⟨by decide, rfl, by decide, rfl, rfl⟩

/-- C17 (the code at a failing input): for the key `éé.` the byte offset of the
last dot is 4 while the key has 3 runes, so the slice `a[lastIndex+1:]` is out of
range and the provider panics, for every expected type, on a store that holds
nothing. -/
theorem getTmpl_panics_on_multibyte_key :
    LastIndex "éé." "." = 4 ∧
    ("éé." : String).data.length = 3 ∧
    splitKey "éé." = Res.panic ∧
    (∀ tpe : String, GetTmplOrTypedValueForConfigKey emptyViper "éé." tpe = Res.panic) ∧
    GetTmplOrTypedValueForConfigKey emptyViper "" "string" = Res.ret Value.null ∧
    GetTmplOrTypedValueForConfigKey emptyViper "deploy." "string" = Res.ret Value.null := by
  refine ⟨by decide, by decide, rfl, ?_, rfl, rfl⟩
  intro tpe
  rw [getTmpl_of_no_flag emptyViper "éé." tpe rfl]
  exact configLookup_of_split_panic emptyViper "éé." tpe (by decide) rfl

/-- C19 (the code at a failing input): the guard of the positional source is
`len(args) >= *i+1` alone.  With `ArgumentIndex` set to `-1` it holds for every
argument list, `args[-1]` is read and the resolution panics; with the largest
machine integer `*i+1` wraps around and the read is out of range as well.  For an
index from 0 up, the read happens only below `len(args)`. -/
theorem positional_lookup_panics_on_negative_index :
    positionalArg negativeIndexInput [] = Res.panic ∧
    positionalArg negativeIndexInput ["a", "b"] = Res.panic ∧
    (∀ run : RunTaskFn,
      DirectInputValuesForTaskKey (plainLib emptyViper) (sampleApp negativeIndexTask) run
        ⟨["deploy"]⟩ [] [] [] [] initState = Res.panic) ∧
    positionalArg maxIndexInput ["a"] = Res.panic ∧
    positionalArg positionalInput [] = Res.ret Value.null ∧
    positionalArg positionalInput ["a"] = Res.ret (Value.str "a") := by
  refine ⟨rfl, rfl, ?_, rfl, rfl, rfl⟩
  intro run
  rfl

/-! ## Lemmas: where the split and the positional guard are right -/

theorem utf8Len_ascii (cs : List Char) (h : ∀ c ∈ cs, c.toNat < 128) :
    utf8Len cs = cs.length := by
  induction cs with
  | nil => rfl
  | cons c cs ih =>
      have hc : c.toNat < 128 := h c (by simp)
      have hcs : ∀ x ∈ cs, x.toNat < 128 := fun x hx => h x (by simp [hx])
      have := ih hcs
      simp only [utf8Len, List.map_cons, List.sum_cons, List.length_cons] at this ⊢
      rw [this]
      simp [runeLen, hc]
      omega

theorem splitKey_ascii (k : String) (hdot : '.' ∈ k.data) (hascii : ∀ c ∈ k.data, c.toNat < 128) :
    ∃ k1 k2 : String,
      splitKey k = Res.ret (k1, k2) ∧ k1 ++ "." ++ k2 = k ∧ '.' ∉ k2.data := by
  obtain ⟨pre, post, hk, hpost⟩ := exists_last_dot k.data hdot
  have hpre : ∀ c ∈ pre, c.toNat < 128 := fun c hc => hascii c (by rw [hk]; simp [hc])
  have hli : LastIndex k "." = (pre.length : Int) := by
    unfold LastIndex
    rw [hk, lastIndexAux_dot_last pre post 0 (-1) hpost, utf8Len_ascii pre hpre]
    simp
  have hlen : k.data.length = pre.length + 1 + post.length := by
    rw [hk]
    simp
    omega
  have hbound : ¬ (LastIndex k "." + 1 > (k.data.length : Int)) := by
    rw [hli, hlen]
    omega
  have hs : splitKey k = Res.ret (String.mk (k.data.take (LastIndex k ".").toNat),
      String.mk (k.data.drop ((LastIndex k ".").toNat + 1))) := if_neg hbound
  have htake : k.data.take (LastIndex k ".").toNat = pre := by
    rw [hli, hk]
    simp
  have hdrop : k.data.drop ((LastIndex k ".").toNat + 1) = post := by
    rw [hli, hk]
    simp
  refine ⟨String.mk pre, String.mk post, ?_, ?_, hpost⟩
  · rw [hs, htake, hdrop]
  · apply String.ext
    simp [String.data_append, hk]

theorem positionalArg_nonneg (input : Input) (args : List String) (i : Nat)
    (hidx : input.ArgumentIndex = some (i : Int)) (hi : i + 1 < 2 ^ 63) :
    positionalArg input args =
      match args[i]? with
      | some a => Res.ret (Value.str a)
      | none => Res.ret Value.null := by
  have hw : wrapInt64 ((i : Int) + 1) = (i : Int) + 1 :=
    wrapInt64_of_range _ (by omega) (by omega)
  rcases Nat.lt_or_ge i args.length with h | h
  · have hc : (args.length : Int) ≥ (i : Int) + 1 := by omega
    have ha : args[i]? = some args[i] := List.getElem?_eq_getElem h
    simp [positionalArg, hidx, hw, hc, ha]
  · have hc : ¬ ((args.length : Int) ≥ (i : Int) + 1) := by omega
    have hc2 : (args.length : Int) < (i : Int) + 1 := by omega
    have ha : args[i]? = none := List.getElem?_eq_none h
    simp [positionalArg, hidx, hw, hc2, ha]

/-! ## Lemmas: substring test and lookup order -/

theorem lastIndexAux_nonneg (sub : List Char) (cs : List Char) (off : Nat) (acc : Int)
    (h : 0 ≤ acc) : 0 ≤ lastIndexAux sub cs off acc := by
  induction cs generalizing off acc with
  | nil =>
      unfold lastIndexAux
      split
      · omega
      · exact h
  | cons c cs ih =>
      unfold lastIndexAux
      apply ih
      split
      · omega
      · exact h

theorem lastIndexAux_of_not_infix (sub : List Char) (cs : List Char) (off : Nat) (acc : Int)
    (h : ¬ sub <:+: cs) : lastIndexAux sub cs off acc = acc := by
  induction cs generalizing off acc with
  | nil =>
      have hne : sub ≠ [] := by
        intro he
        apply h
        rw [he]
      simp [lastIndexAux, hne]
  | cons c cs ih =>
      have h1 : ¬ sub <+: c :: cs := fun hp => h hp.isInfix
      have h2 : ¬ sub <:+: cs := fun hi => h (List.infix_cons hi)
      unfold lastIndexAux
      rw [ih _ _ h2]
      simp [h1]

theorem lastIndexAux_of_infix (sub : List Char) (cs : List Char) (off : Nat) (acc : Int)
    (h : sub <:+: cs) : 0 ≤ lastIndexAux sub cs off acc := by
  induction cs generalizing off acc with
  | nil =>
      have he : sub = [] := List.eq_nil_of_infix_nil h
      simp [lastIndexAux, he]
  | cons c cs ih =>
      unfold lastIndexAux
      rcases List.infix_cons_iff.mp h with hp | hi
      · apply lastIndexAux_nonneg
        simp [hp]
      · exact ih _ _ hi

theorem LastIndex_eq_neg_one_iff (s sub : String) :
    LastIndex s sub = -1 ↔ ¬ sub.data <:+: s.data := by
  unfold LastIndex
  constructor
  · intro h hi
    have := lastIndexAux_of_infix sub.data s.data 0 (-1) hi
    omega
  · intro h
    exact lastIndexAux_of_not_infix sub.data s.data 0 (-1) h

theorem firstPresent_cons_ret (v : Value) (rest : List (Res Value)) :
    firstPresent (Res.ret v :: rest) = if v.isNil then firstPresent rest else Res.ret v := by
  simp [firstPresent]

theorem firstPresent_single (r : Res Value) : firstPresent [r] = r := by
  rcases r with v | _ | _
  · cases v <;> simp [firstPresent, Value.isNil]
  · simp [firstPresent]
  · simp [firstPresent]

/-! ## Theorems: order of the configuration lookups -/

/-- C18: in `DirectInputValuesForTaskKey`, for an input with no positional and no
named-argument value, the raw value is the first non-absent result among the
lookups at `<callerTaskKey>.<ShortName>` (made when the key of the caller is not
empty; it is empty when there is no caller), at `<taskName>.<ShortName>` (made iff
the short string of the task does not occur as a substring of the `ShortName`) and
at the bare `ShortName`, in that order, a later lookup being consulted only when
every earlier one yielded absent.  The default is consulted only when all of them
yielded absent: a non-absent raw value is rendered and typed whatever the default
holds, and with an absent one the static default is the value stored. -/
theorem config_lookup_order (L : Lib) (run : RunTaskFn) (taskName : TaskName)
    (currentTask : Task) (baseTaskKey : String) (args : List String) (arguments scope : Obj)
    (input : Input) (s : State)
    (hpos : positionalArg input args = Res.ret Value.null)
    (hnamed : namedArg input arguments Value.null = Value.null) :
    rawFromSources L taskName baseTaskKey input args arguments =
      firstPresent
        ((if baseTaskKey ≠ "" then
            [GetTmplOrTypedValueForConfigKey L.viper (dotted baseTaskKey input.ShortName)
              input.TypeName]
          else []) ++
         (if ¬ taskName.ShortString.data <:+: input.ShortName.data then
            [GetTmplOrTypedValueForConfigKey L.viper (dotted taskName.ShortString input.ShortName)
              input.TypeName]
          else []) ++
         [GetTmplOrTypedValueForConfigKey L.viper input.ShortName input.TypeName]) ∧
    (∀ v : Value,
      rawFromSources L taskName baseTaskKey input args arguments = Res.ret v →
      v.isNil = false →
      resolveInput L run taskName currentTask baseTaskKey args arguments scope input s =
        Res.ret (renderAndType L currentTask scope input v, s)) ∧
    (∀ value : Value,
      rawFromSources L taskName baseTaskKey input args arguments = Res.ret Value.null →
      staticDefault input = (value, none) → value.isNil = false →
      resolveInput L run taskName currentTask baseTaskKey args arguments scope input s =
        Res.ret ((value, none), s)) := by
  refine ⟨?_, ?_, ?_⟩
  · simp only [rawFromSources, hpos, Res.bind, hnamed, configArg, isNil_null, true_and]
    have hsub : (LastIndex input.ShortName taskName.ShortString = -1) ↔
        ¬ taskName.ShortString.data <:+: input.ShortName.data :=
      LastIndex_eq_neg_one_iff _ _
    by_cases hb : baseTaskKey = ""
    · by_cases hi : taskName.ShortString.data <:+: input.ShortName.data
      · have hl : ¬ LastIndex input.ShortName taskName.ShortString = -1 := fun h => hsub.mp h hi
        simp [hb, hi, hl, firstPresent_single]
      · have hl : LastIndex input.ShortName taskName.ShortString = -1 := hsub.mpr hi
        rcases hg1 : GetTmplOrTypedValueForConfigKey L.viper
            (dotted taskName.ShortString input.ShortName) input.TypeName with v1 | _ | _
        · cases hv1 : v1.isNil <;>
            simp [hb, hi, hl, hg1, hv1, firstPresent_single, firstPresent_cons_ret]
        · simp [hb, hi, hl, hg1, firstPresent]
        · simp [hb, hi, hl, hg1, firstPresent]
    · rcases hg0 : GetTmplOrTypedValueForConfigKey L.viper (dotted baseTaskKey input.ShortName)
          input.TypeName with v0 | _ | _
      · cases hv0 : v0.isNil
        · simp [hb, hg0, hv0, firstPresent_cons_ret]
        · by_cases hi : taskName.ShortString.data <:+: input.ShortName.data
          · have hl : ¬ LastIndex input.ShortName taskName.ShortString = -1 :=
              fun h => hsub.mp h hi
            simp [hb, hi, hl, hg0, hv0, firstPresent_single, firstPresent_cons_ret]
          · have hl : LastIndex input.ShortName taskName.ShortString = -1 := hsub.mpr hi
            rcases hg1 : GetTmplOrTypedValueForConfigKey L.viper
                (dotted taskName.ShortString input.ShortName) input.TypeName with v1 | _ | _
            · cases hv1 : v1.isNil <;>
                simp [hb, hi, hl, hg0, hv0, hg1, hv1, firstPresent_single,
                  firstPresent_cons_ret]
            · simp [hb, hi, hl, hg0, hv0, hg1, firstPresent_cons_ret, firstPresent]
            · simp [hb, hi, hl, hg0, hv0, hg1, firstPresent_cons_ret, firstPresent]
      · simp [hb, hg0, firstPresent]
      · simp [hb, hg0, firstPresent]
  · intro v hraw hv
    exact resolveInput_of_raw L run taskName currentTask baseTaskKey args arguments scope input
      s v hraw hv
  · intro value hraw hdef hv
    exact resolveInput_of_default L run taskName currentTask baseTaskKey args arguments scope
      input s value hraw hdef hv

theorem config_lookup_order_witness :
    rawFromSources (sampleLib sectionViper) ⟨["deploy"]⟩ "" replicasInput [] [] =
      firstPresent
        ((if ("" : String) ≠ "" then
            [GetTmplOrTypedValueForConfigKey (sampleLib sectionViper).viper
              (dotted "" replicasInput.ShortName) replicasInput.TypeName]
          else []) ++
         (if ¬ (TaskName.mk ["deploy"]).ShortString.data <:+: replicasInput.ShortName.data then
            [GetTmplOrTypedValueForConfigKey (sampleLib sectionViper).viper
              (dotted (TaskName.mk ["deploy"]).ShortString replicasInput.ShortName)
              replicasInput.TypeName]
          else []) ++
         [GetTmplOrTypedValueForConfigKey (sampleLib sectionViper).viper replicasInput.ShortName
            replicasInput.TypeName]) :=
  (config_lookup_order (sampleLib sectionViper) noRun ⟨["deploy"]⟩ scaleTask "" [] [] []
    replicasInput initState rfl rfl).1

/-! ## Lemmas: the variable scope -/

theorem lookupKey_foldl_setKey (k : String) :
    ∀ (m base : Obj), distinctKeys m →
      lookupKey k (m.foldl (fun vars kv => setKey kv.1 kv.2 vars) base) =
        if hasKey k m then lookupKey k m else lookupKey k base := by
  intro m
  induction m with
  | nil => intro base _; simp [hasKey]
  | cons kv rest ih =>
      intro base hm
      obtain ⟨k0, v0⟩ := kv
      obtain ⟨h0, hrest⟩ := hm
      rw [List.foldl_cons, ih _ hrest]
      by_cases hk : k0 = k
      · subst hk
        simp [hasKey, lookupKey, h0, lookupKey_setKey_same]
      · simp [hasKey, lookupKey, hk, lookupKey_setKey_other k k0 v0 base hk]

theorem buildVars_seed (p : Application) (args : List String) (inputs : Obj)
    (hd : distinctKeys inputs) (k : String) (hk : hasKey k inputs = false) :
    lookupKey k (buildVars p args inputs) =
      lookupKey k [("args", Value.strs args), ("env", Value.str p.Env),
        ("cmd", Value.str p.CommandRelativePath)] := by
  unfold buildVars
  rw [lookupKey_foldl_setKey k inputs _ hd]
  simp [hk, setKey]

theorem buildVars_input (p : Application) (args : List String) (inputs : Obj)
    (hd : distinctKeys inputs) (k : String) (hk : hasKey k inputs = true) :
    lookupKey k (buildVars p args inputs) = lookupKey k inputs := by
  unfold buildVars
  rw [lookupKey_foldl_setKey k inputs _ hd]
  simp [hk]

theorem runTask_reaches_body (L : Lib) (p : Application) (fuel : Nat) (taskName : TaskName)
    (args : List String) (arguments scope : Obj) (caller : List Task) (s s1 : State)
    (taskDef : Task) (inputs : Obj) (schema : Value) (verr : Option GoError)
    (hprov : GetTmplOrTypedValueForConfigKey L.viper taskName.ShortString "string" =
      Res.ret Value.null)
    (hfind : p.FindTask taskName = Except.ok taskDef)
    (hinputs : InheritedInputValuesForTaskKey L p (RunTask L p fuel) taskName args arguments
      scope caller (s.log (Event.findTask taskName)) = Res.ret ((inputs, none), s1))
    (hschema : jsonschemaFromInputs L taskDef.Inputs = (schema, none))
    (hvalid : L.Validate schema (L.Flatten (buildVars p args inputs)) = (some [], verr))
    (hrunner : L.NewTaskRunner taskDef (buildVars p args inputs) = none) :
    RunTask L p (fuel + 1) taskName args arguments scope caller s =
      Res.ret
        (((L.Run taskDef (buildVars p args inputs) caller s1.CachedTaskOutputs).1.1,
          Annotatef (L.Run taskDef (buildVars p args inputs) caller s1.CachedTaskOutputs).1.2
            "app failed running task"),
         { CachedTaskOutputs :=
             (L.Run taskDef (buildVars p args inputs) caller s1.CachedTaskOutputs).2,
           trace := s1.trace ++ [Event.validate taskName, Event.newTaskRunner taskName,
             Event.runBody taskName] }) := by
  simp only [RunTask, hprov, hfind, hinputs, isNil_null, not_true_eq_false, if_false]
  simp [validateAndRun, hschema, hvalid, hrunner, State.log]

/-! ## Theorems: the variable scope of the task body -/

/-- C14 (the claim at a failing input): the task `show` declares an input named
`env` and the application's `Env` is `dev`.  With no source for the input its
value is the implicit empty string, the resolved inputs are written over the
pre-seeded variables, and the task body is bound to a scope whose `env` is the
empty string, not `dev`. -/
theorem declared_env_input_overrides_seed :
    (sampleApp envTask).Env = "dev" ∧
    InheritedInputValuesForTaskKey echoLib (sampleApp envTask)
        (RunTask echoLib (sampleApp envTask) 1) ⟨["show"]⟩ ["a"] [] [] []
        (initState.log (Event.findTask ⟨["show"]⟩)) =
      Res.ret (([("env", Value.str "")], none),
        { CachedTaskOutputs := [],
          trace := [Event.findTask ⟨["show"]⟩, Event.findTask ⟨["show"]⟩] }) ∧
    lookupKey "env" (buildVars (sampleApp envTask) ["a"] [("env", Value.str "")]) =
      Value.str "" ∧
    RunTask echoLib (sampleApp envTask) 2 ⟨["show"]⟩ ["a"] [] [] [] initState =
      Res.ret (("env=", none),
        { CachedTaskOutputs := [],
          trace := [Event.findTask ⟨["show"]⟩, Event.findTask ⟨["show"]⟩,
                    Event.validate ⟨["show"]⟩, Event.newTaskRunner ⟨["show"]⟩,
                    Event.runBody ⟨["show"]⟩] }) := by
  refine ⟨rfl, rfl, rfl, rfl⟩

/-- C14 (amended): for every `RunTask` invocation that gets as far as running the
task body, the body is run with the variable scope built from `args`, `env`, `cmd`
and the resolved inputs.  The scope holds under `args` the positional argument
list, under `env` the application's `Env` and under `cmd` the application's
`CommandRelativePath`, each unless the resolved inputs hold a value under that
name; under every name that the resolved inputs hold, the scope holds the resolved
input value. -/
theorem preseeded_vars_unless_overridden (L : Lib) (p : Application) (fuel : Nat)
    (taskName : TaskName) (args : List String) (arguments scope : Obj) (caller : List Task)
    (s s1 : State) (taskDef : Task) (inputs : Obj) (schema : Value) (verr : Option GoError)
    (hprov : GetTmplOrTypedValueForConfigKey L.viper taskName.ShortString "string" =
      Res.ret Value.null)
    (hfind : p.FindTask taskName = Except.ok taskDef)
    (hinputs : InheritedInputValuesForTaskKey L p (RunTask L p fuel) taskName args arguments
      scope caller (s.log (Event.findTask taskName)) = Res.ret ((inputs, none), s1))
    (hschema : jsonschemaFromInputs L taskDef.Inputs = (schema, none))
    (hvalid : L.Validate schema (L.Flatten (buildVars p args inputs)) = (some [], verr))
    (hrunner : L.NewTaskRunner taskDef (buildVars p args inputs) = none) :
    RunTask L p (fuel + 1) taskName args arguments scope caller s =
      Res.ret
        (((L.Run taskDef (buildVars p args inputs) caller s1.CachedTaskOutputs).1.1,
          Annotatef (L.Run taskDef (buildVars p args inputs) caller s1.CachedTaskOutputs).1.2
            "app failed running task"),
         { CachedTaskOutputs :=
             (L.Run taskDef (buildVars p args inputs) caller s1.CachedTaskOutputs).2,
           trace := s1.trace ++ [Event.validate taskName, Event.newTaskRunner taskName,
             Event.runBody taskName] }) ∧
    (hasKey "args" inputs = false →
      lookupKey "args" (buildVars p args inputs) = Value.strs args) ∧
    (hasKey "env" inputs = false →
      lookupKey "env" (buildVars p args inputs) = Value.str p.Env) ∧
    (hasKey "cmd" inputs = false →
      lookupKey "cmd" (buildVars p args inputs) = Value.str p.CommandRelativePath) ∧
    (∀ k : String, hasKey k inputs = true →
      lookupKey k (buildVars p args inputs) = lookupKey k inputs) := by
  have hd : distinctKeys inputs :=
    distinctKeys_inheritedAux L p (RunTask L p fuel) _ taskName args arguments scope caller _ s1
      inputs hinputs
  refine ⟨runTask_reaches_body L p fuel taskName args arguments scope caller s s1 taskDef inputs
    schema verr hprov hfind hinputs hschema hvalid hrunner, ?_, ?_, ?_, ?_⟩
  · intro hk
    rw [buildVars_seed p args inputs hd "args" hk]
    rfl
  · intro hk
    rw [buildVars_seed p args inputs hd "env" hk]
    rfl
  · intro hk
    rw [buildVars_seed p args inputs hd "cmd" hk]
    rfl
  · intro k hk
    exact buildVars_input p args inputs hd k hk

theorem preseeded_vars_unless_overridden_witness :
    lookupKey "env" (buildVars (sampleApp scaleTask) ["a"] [("replicas", Value.int 3)]) =
      Value.str (sampleApp scaleTask).Env :=
  (preseeded_vars_unless_overridden (sampleLib emptyViper) (sampleApp scaleTask) 1 ⟨["deploy"]⟩
    ["a"] [] [] [] initState
    { CachedTaskOutputs := [],
      trace := [Event.findTask ⟨["deploy"]⟩, Event.findTask ⟨["deploy"]⟩] }
    scaleTask [("replicas", Value.int 3)]
    (jsonschemaFromInputs (sampleLib emptyViper) scaleTask.Inputs).1 none
    rfl rfl rfl rfl rfl rfl).2.2.1 rfl

end Variant
